import Mathlib

set_option autoImplicit false

/-!
Verification development for the stackmate service-definition and
provisioning-graph resolution engine.

The definitions below are a shallow embedding of the TypeScript sources:
`hashObject`/`hashString` (lib/hash), `mergeJsonSchemas` (lib utilities),
`getAutoGeneratedAttributes` (project/utils), and the operation core
(`getProvisionable`, `StageOperation.setupProvisionables`,
`StageOperation.register`, `StageOperation.registerAssociated`,
`StageOperation.process`, `assertRequirementsSatisfied`,
`validateEnvironment`, `validate`).  Machine integers do not occur; the
only numeric code is the MD5 hash, embedded over `Nat` with explicit
`% 2^32` reductions.  Stateful code is embedded as explicit state passing
over an `OpState` record, with a fuel parameter making the (potentially
divergent) recursive registration total.
-/

namespace Stackmate

/-- Association-list lookup, mirroring JS object / `Map.get` access used
throughout the sources. -/
def alookup {κ α : Type} [DecidableEq κ] (k : κ) : List (κ × α) → Option α
  | [] => none
  | (k', v) :: rest => if k' = k then some v else alookup k rest

/-- JS `Map.set` / keyed insert: replaces the value in place when the key
exists (preserving insertion order, as JS `Map.set` does), appends
otherwise. -/
def msetKey {κ α : Type} [DecidableEq κ] (m : List (κ × α)) (k : κ) (v : α) :
    List (κ × α) :=
  match m with
  | [] => [(k, v)]
  | (k', v') :: rest =>
    if k' = k then (k', v) :: rest else (k', v') :: msetKey rest k v

/-- `Object.assign(output, { [name]: out })`: same replace-or-append
semantics as `msetKey`. -/
def jsAssign {κ α : Type} [DecidableEq κ] (m : List (κ × α)) (k : κ) (v : α) :
    List (κ × α) :=
  msetKey m k v

/-- lodash `uniq` / `uniqBy identity`: keeps the first occurrence of every
element. -/
def uniqAux {α : Type} [DecidableEq α] : List α → List α → List α
  | _, [] => []
  | seen, a :: rest =>
    if a ∈ seen then uniqAux seen rest else a :: uniqAux (a :: seen) rest

/-- lodash `uniq`. -/
def uniqFirst {α : Type} [DecidableEq α] (l : List α) : List α :=
  uniqAux [] l

/-! ## MD5 (lib/hash: `crypto.createHash('md5')`)

`hashString` in the source delegates to node's `crypto` MD5.  We embed the
MD5 algorithm itself (RFC 1321) over `Nat` with explicit `% 2^32`
reductions so that hashes of concrete configurations can be computed by the
kernel. -/

/-- 2^32, the modulus of all MD5 word arithmetic. -/
def M32 : Nat := 4294967296

/-- 32-bit left rotation. -/
def rotl32 (x n : Nat) : Nat :=
  ((x <<< n) ||| (x >>> (32 - n))) % M32

/-- The 64 MD5 round constants (⌊2^32·|sin(i+1)|⌋). -/
def md5K : List Nat :=
  [0xd76aa478, 0xe8c7b756, 0x242070db, 0xc1bdceee,
   0xf57c0faf, 0x4787c62a, 0xa8304613, 0xfd469501,
   0x698098d8, 0x8b44f7af, 0xffff5bb1, 0x895cd7be,
   0x6b901122, 0xfd987193, 0xa679438e, 0x49b40821,
   0xf61e2562, 0xc040b340, 0x265e5a51, 0xe9b6c7aa,
   0xd62f105d, 0x02441453, 0xd8a1e681, 0xe7d3fbc8,
   0x21e1cde6, 0xc33707d6, 0xf4d50d87, 0x455a14ed,
   0xa9e3e905, 0xfcefa3f8, 0x676f02d9, 0x8d2a4c8a,
   0xfffa3942, 0x8771f681, 0x6d9d6122, 0xfde5380c,
   0xa4beea44, 0x4bdecfa9, 0xf6bb4b60, 0xbebfbc70,
   0x289b7ec6, 0xeaa127fa, 0xd4ef3085, 0x04881d05,
   0xd9d4d039, 0xe6db99e5, 0x1fa27cf8, 0xc4ac5665,
   0xf4292244, 0x432aff97, 0xab9423a7, 0xfc93a039,
   0x655b59c3, 0x8f0ccc92, 0xffeff47d, 0x85845dd1,
   0x6fa87e4f, 0xfe2ce6e0, 0xa3014314, 0x4e0811a1,
   0xf7537e82, 0xbd3af235, 0x2ad7d2bb, 0xeb86d391]

/-- The 64 MD5 per-round shift amounts. -/
def md5S : List Nat :=
  [7, 12, 17, 22, 7, 12, 17, 22, 7, 12, 17, 22, 7, 12, 17, 22,
   5, 9, 14, 20, 5, 9, 14, 20, 5, 9, 14, 20, 5, 9, 14, 20,
   4, 11, 16, 23, 4, 11, 16, 23, 4, 11, 16, 23, 4, 11, 16, 23,
   6, 10, 15, 21, 6, 10, 15, 21, 6, 10, 15, 21, 6, 10, 15, 21]

/-- MD5 nonlinear functions F/G/H/I selected by the round index. -/
def md5F (i b c d : Nat) : Nat :=
  if i < 16 then (b &&& c) ||| ((b ^^^ 0xffffffff) &&& d)
  else if i < 32 then (d &&& b) ||| ((d ^^^ 0xffffffff) &&& c)
  else if i < 48 then b ^^^ c ^^^ d
  else c ^^^ (b ||| (d ^^^ 0xffffffff))

/-- MD5 message-word index schedule. -/
def md5G (i : Nat) : Nat :=
  if i < 16 then i
  else if i < 32 then (5 * i + 1) % 16
  else if i < 48 then (3 * i + 5) % 16
  else (7 * i) % 16

/-- One MD5 round on the state (a, b, c, d). -/
def md5Round (m : List Nat) (st : Nat × Nat × Nat × Nat) (i : Nat) :
    Nat × Nat × Nat × Nat :=
  let a := st.1
  let b := st.2.1
  let c := st.2.2.1
  let d := st.2.2.2
  let f := (md5F i b c d + a + md5K.getD i 0 + m.getD (md5G i) 0) % M32
  (d, (b + rotl32 f (md5S.getD i 0)) % M32, b, c)

/-- Process one 16-word chunk, adding the round results into the running
state. -/
def md5Chunk (st : Nat × Nat × Nat × Nat) (m : List Nat) :
    Nat × Nat × Nat × Nat :=
  let r := (List.range 64).foldl (md5Round m) st
  ((st.1 + r.1) % M32, (st.2.1 + r.2.1) % M32,
   (st.2.2.1 + r.2.2.1) % M32, (st.2.2.2 + r.2.2.2) % M32)

/-- Little-endian 32-bit words from a byte list. -/
def toWords : List Nat → List Nat
  | b0 :: b1 :: b2 :: b3 :: rest =>
    (b0 + 256 * b1 + 65536 * b2 + 16777216 * b3) :: toWords rest
  | _ => []

/-- Split a byte list into 64-byte chunks (fueled for structural
recursion; the fuel is instantiated with the list length). -/
def chunksAux : Nat → List Nat → List (List Nat)
  | 0, _ => []
  | _ + 1, [] => []
  | n + 1, l => l.take 64 :: chunksAux n (l.drop 64)

/-- 64-bit little-endian length encoding. -/
def lenBytes (n : Nat) : List Nat :=
  [n % 256, (n >>> 8) % 256, (n >>> 16) % 256, (n >>> 24) % 256,
   (n >>> 32) % 256, (n >>> 40) % 256, (n >>> 48) % 256, (n >>> 56) % 256]

/-- MD5 padding: 0x80, zeros to 56 mod 64, then the bit length. -/
def md5Pad (msg : List Nat) : List Nat :=
  let withOne := msg ++ [0x80]
  let zeros := (120 - withOne.length % 64) % 64
  withOne ++ List.replicate zeros 0 ++ lenBytes (msg.length * 8)

/-- Little-endian bytes of one 32-bit word. -/
def wordLEBytes (w : Nat) : List Nat :=
  [w % 256, (w >>> 8) % 256, (w >>> 16) % 256, (w >>> 24) % 256]

/-- MD5 digest bytes of a byte list. -/
def md5Bytes (msg : List Nat) : List Nat :=
  let padded := md5Pad msg
  let cs := chunksAux padded.length padded
  let r := cs.foldl (fun st ch => md5Chunk st (toWords ch))
    (0x67452301, 0xefcdab89, 0x98badcfe, 0x10325476)
  wordLEBytes r.1 ++ wordLEBytes r.2.1 ++ wordLEBytes r.2.2.1 ++
    wordLEBytes r.2.2.2

/-- Lower-case hex digit. -/
def hexDigit (n : Nat) : Char :=
  if n < 10 then Char.ofNat (48 + n) else Char.ofNat (87 + n)

/-- Two hex digits of a byte. -/
def byteHex (b : Nat) : List Char :=
  [hexDigit (b / 16), hexDigit (b % 16)]

/-- `hashString` (lib/hash): the hex MD5 digest of a string
(`crypto.createHash('md5').update(str).digest('hex')`).  Characters are
taken by code point, which agrees with UTF-8 for the ASCII strings the
engine hashes. -/
def hashString (s : String) : String :=
  String.mk ((md5Bytes (s.toList.map Char.toNat)).flatMap byteHex)

/-! ## JSON serialization and `hashObject`

Service configurations are flat JS objects whose values are strings or
numbers; `hashObject` is `hashString(JSON.stringify(obj))`. -/

/-- A configuration attribute value: JS string or (integer) number. -/
inductive CVal where
  | s (v : String)
  | n (v : Nat)
deriving DecidableEq, Repr

/-- A concrete service configuration: a JS object as an insertion-ordered
key/value list. -/
abbrev Config := List (String × CVal)

/-- JSON escaping of one character, as `JSON.stringify` performs it. -/
def escJsonChar (c : Char) : String :=
  if c = '"' then "\\\""
  else if c = '\\' then "\\\\"
  else if c = Char.ofNat 10 then "\\n"
  else if c = Char.ofNat 9 then "\\t"
  else if c = Char.ofNat 13 then "\\r"
  else if c = Char.ofNat 8 then "\\b"
  else if c = Char.ofNat 12 then "\\f"
  else if c.toNat < 32 then
    String.mk ('\\' :: 'u' :: '0' :: '0' :: byteHex c.toNat)
  else String.singleton c

/-- JSON string literal. -/
def jsonStr (s : String) : String :=
  "\"" ++ String.join (s.toList.map escJsonChar) ++ "\""

/-- JSON rendering of an attribute value. -/
def cvalJson : CVal → String
  | .s v => jsonStr v
  | .n v => toString v

/-- `JSON.stringify` of a flat configuration object: fields in insertion
order (JS objects preserve string-key insertion order). -/
def jsonStringify (c : Config) : String :=
  String.singleton (Char.ofNat 123) ++
    String.intercalate "," (c.map fun kv => jsonStr kv.1 ++ ":" ++ cvalJson kv.2) ++
    String.singleton (Char.ofNat 125)

/-- `hashObject` (lib/hash): MD5 of the JSON serialization. -/
def hashObject (c : Config) : String :=
  hashString (jsonStringify c)

/-! ## Schema composition (`mergeJsonSchemas`)

The source destructures `properties` and `required` out of the two schema
fragments, lodash-`merge`s the remaining top-level keywords and the two
property maps, and `uniq`s the concatenated `required` lists.  lodash
`merge` is a deep merge: objects merge key-by-key recursively, scalars
from the second argument replace values from the first.  Property
definitions in the engine's schemas are flat objects of scalar keywords
(`type`, `default`, `minimum`, ...), so values are embedded with that
two-level shape. -/

/-- A scalar JSON value inside a property definition. -/
inductive Prim where
  | str (v : String)
  | num (v : Nat)
  | bool (v : Bool)
deriving DecidableEq, Repr

/-- A top-level schema keyword value: a scalar or a flat object (such as
one property's definition). -/
inductive JVal where
  | prim (p : Prim)
  | obj (fields : List (String × Prim))
deriving DecidableEq, Repr

/-- lodash `merge` restricted to flat objects: the second object's fields
are assigned over the first's, key by key. -/
def assignFields (a b : List (String × Prim)) : List (String × Prim) :=
  b.foldl (fun acc kv => msetKey acc kv.1 kv.2) a

/-- lodash `merge` on keyword values: objects merge recursively (here:
field-wise), any other combination is replaced by the second value. -/
def mergeVal : JVal → JVal → JVal
  | .obj fa, .obj fb => .obj (assignFields fa fb)
  | _, b => b

/-- lodash `merge` of two keyword maps: each key of `b` is merged into
`a`, keys found in `a` via `mergeVal`, fresh keys appended. -/
def mergeProps (a b : List (String × JVal)) : List (String × JVal) :=
  b.foldl
    (fun acc kv =>
      match alookup kv.1 acc with
      | some old => msetKey acc kv.1 (mergeVal old kv.2)
      | none => acc ++ [kv])
    a

/-- A structural schema fragment: its property map, its required list and
every other top-level keyword (`$id`, `type`, `additionalProperties`,
...). -/
structure JsonSchema where
  properties : List (String × JVal)
  required : List String
  rest : List (String × JVal)
deriving Repr

/-- `mergeJsonSchemas` (lib): merge the non-`properties`/`required`
keywords, merge the property maps, and de-duplicate the union of the
required lists. -/
def mergeJsonSchemas (source target : JsonSchema) : JsonSchema :=
  { rest := mergeProps source.rest target.rest
    properties := mergeProps source.properties target.properties
    required := uniqFirst (source.required ++ target.required) }

/-! ## Auto-attribute generation (`getAutoGeneratedAttributes`)

From `src/project/utils/getAutoGeneratedAttributes.ts` — the revision
whose generators the repository's own test-suite pins (separate DNS/SSL
generators, a cluster generator producing `clusterName`): a service type
with a registered generator returns that generator's result directly; the
default `{ name, provider, type, region }` derivation is the fallback for
types without a generator. -/

/-- Modelled from the spec: `DEFAULT_PROVIDER` lives in
`src/project/constants`, which is absent from the sources; the spec's
"system default" provider. -/
def DEFAULT_PROVIDER : String := "aws"

/-- Modelled from the spec: `DEFAULT_REGION` (per-provider default region
map from `src/project/constants`, absent from the sources); only the state
generator consults it. -/
def DEFAULT_REGION_OF (provider : String) : Option String :=
  if provider = "aws" then some "eu-central-1" else none

/-- Modelled from the spec: `path.basename(process.cwd())`, the working
directory's base name used as a project-name fallback by the cluster
generator. -/
def cwdBasename : String := "stackmate-cli-os"

/-- JS truthiness of an optional string (`undefined` and `""` are
falsy). -/
def truthyS : Option String → Option String
  | some v => if v = "" then none else some v
  | none => none

/-- A JS `a || b || dflt` chain over optional strings. -/
def firstTruthy (l : List (Option String)) (dflt : String) : String :=
  match l with
  | [] => dflt
  | a :: rest =>
    match truthyS a with
    | some v => v
    | none => firstTruthy rest dflt

/-- A JS `a || b` over optional strings, keeping the result optional. -/
def orFalsy (a b : Option String) : Option String :=
  match truthyS a with
  | some v => some v
  | none => b

/-- String-valued attribute access on a configuration object. -/
def cfgStr (c : Config) (k : String) : Option String :=
  match alookup k c with
  | some (.s v) => some v
  | _ => none

/-- `hasDomain`: the associated config exists and carries a non-empty
string `domain` attribute. -/
def hasDomain : Option Config → Bool
  | none => false
  | some cfg =>
    match alookup "domain" cfg with
    | some (.s d) => d ≠ ""
    | _ => false

/-- Modelled from the spec: `getTopLevelDomain` (`src/lib/domain`, absent
from the sources) — `app.example.com` becomes `example.com`. -/
def getTopLevelDomain (domain : String) : String :=
  let parts := domain.splitOn "."
  String.intercalate "." (parts.drop (parts.length - 2))

/-- lodash `kebabCase`, for the lower-case alphanumeric-with-separators
strings the generators feed it: separator characters become dashes. -/
def kebabCase (s : String) : String :=
  String.intercalate "-"
    (((s.toList.map fun c => if c.isAlphanum then c.toLower else ' ').asString).splitOn " "
      |>.filter (· ≠ ""))

/-- The project-configuration surface the generators consume. -/
structure ProjectConfiguration where
  provider : Option String := none
  region : Option String := none
  name : Option String := none
  state : Config := []

/-- The DNS generator: applicable only when the associated service has a
domain; derives the top-level domain and a `{tld}-dns` name.  A `region`
key whose JS value would be `undefined` is embedded as an absent key. -/
def dnsGenerator (project : ProjectConfiguration) (_environment : String)
    (associated : Option Config) : Option Config :=
  if hasDomain associated then
    let assoc := associated.getD []
    let tld := getTopLevelDomain ((cfgStr assoc "domain").getD "")
    let provider := firstTruthy [cfgStr assoc "provider", project.provider] DEFAULT_PROVIDER
    some ([("type", CVal.s "dns"), ("provider", CVal.s provider)] ++
      (match orFalsy (cfgStr assoc "region") project.region with
       | some r => [("region", CVal.s r)]
       | none => []) ++
      [("domain", CVal.s tld), ("name", CVal.s (kebabCase (tld ++ "-dns")))])
  else none

/-- The SSL generator: keeps the full domain and names the certificate
after the associated service.  Note: it produces no `region` field. -/
def sslGenerator (project : ProjectConfiguration) (_environment : String)
    (associated : Option Config) : Option Config :=
  if hasDomain associated then
    let assoc := associated.getD []
    let provider := firstTruthy [cfgStr assoc "provider", project.provider] DEFAULT_PROVIDER
    some [("type", CVal.s "ssl"), ("provider", CVal.s provider),
          ("domain", CVal.s ((cfgStr assoc "domain").getD "undefined")),
          ("name", CVal.s (kebabCase (((cfgStr assoc "name").getD "undefined") ++ "-ssl-certificate")))]
  else none

/-- The state generator: spreads the project's `state` block, then fixes
`type`, `provider`, `name` and `region` on top of it. -/
def stateGenerator (project : ProjectConfiguration) (_environment : String)
    (_associated : Option Config) : Option Config :=
  let provider := firstTruthy [cfgStr project.state "provider", project.provider] DEFAULT_PROVIDER
  let c1 := jsAssign project.state "type" (CVal.s "state")
  let c2 := jsAssign c1 "provider" (CVal.s provider)
  let c3 := jsAssign c2 "name" (CVal.s "project-state")
  some (match orFalsy (cfgStr project.state "region")
          (orFalsy project.region (DEFAULT_REGION_OF provider)) with
        | some r => jsAssign c3 "region" (CVal.s r)
        | none => c3)

/-- The cluster generator: a provider/region-derived name plus a
`clusterName` combining the project name (or the working directory's base
name) with the environment. -/
def clusterGenerator (project : ProjectConfiguration) (environment : String)
    (associated : Option Config) : Option Config :=
  let assocStr := fun k => associated.bind (fun c => cfgStr c k)
  let provider := firstTruthy [assocStr "provider", project.provider] DEFAULT_PROVIDER
  let region := orFalsy (assocStr "region") project.region
  some ([("name", CVal.s (kebabCase
          ("app-" ++ provider ++ "-" ++
            (match region with | some r => r ++ "-" | none => "") ++ "cluster")))] ++
    [("type", CVal.s "cluster"), ("provider", CVal.s provider)] ++
    (match region with | some r => [("region", CVal.s r)] | none => []) ++
    [("clusterName", CVal.s (kebabCase
      ((firstTruthy [project.name, some cwdBasename] "stackmate-app") ++ "-" ++ environment)))])

/-- The `ATTRIBUTE_GENERATOR` table keyed by service type. -/
def attributeGenerator (type : String) :
    Option (ProjectConfiguration → String → Option Config → Option Config) :=
  if type = "dns" then some dnsGenerator
  else if type = "ssl" then some sslGenerator
  else if type = "state" then some stateGenerator
  else if type = "cluster" then some clusterGenerator
  else none

/-- The default `{ name, provider, type, region }` fallback derivation
used for service types without a specialized generator. -/
def defaultAutoAttributes (type : String) (project : ProjectConfiguration)
    (associated : Option Config) : Config :=
  let assocStr := fun k => associated.bind (fun c => cfgStr c k)
  let provider := firstTruthy [assocStr "provider", project.provider] DEFAULT_PROVIDER
  let region := orFalsy (assocStr "region") project.region
  [("name", CVal.s (provider ++ "-" ++ type ++ "-service")),
   ("provider", CVal.s provider), ("type", CVal.s type)] ++
    (match region with | some r => [("region", CVal.s r)] | none => [])

/-- `getAutoGeneratedAttributes`: dispatch to the specialized generator
when one exists (returning its result — including its `null` sentinel —
verbatim), otherwise produce the default fallback attributes. -/
def getAutoGeneratedAttributes (type : String) (project : ProjectConfiguration)
    (environment : String) (associated : Option Config) : Option Config :=
  match attributeGenerator type with
  | some g => g project environment associated
  | none => some (defaultAutoAttributes type project associated)

/-- Follows the spec's words (§4.3, §8 auto-attribute union), for
comparison with the source's `getAutoGeneratedAttributes`: "the default
fallback always applies on top of — never instead of — a specialized
generator's result", i.e. the union of the generator's fields and the
default fallback fields with the generator's fields winning on overlap. -/
def deriveConfigSpecUnion (type : String) (project : ProjectConfiguration)
    (environment : String) (associated : Option Config) : Option Config :=
  match attributeGenerator type with
  | some g =>
    match g project environment associated with
    | none => none
    | some generated =>
      some (generated.foldl (fun acc kv => jsAssign acc kv.1 kv.2)
        (defaultAutoAttributes type project associated))
  | none => some (defaultAutoAttributes type project associated)

/-! ## The operation core

Shallow embedding of `core/operation` (`getProvisionable`,
`StageOperation`) together with `assertRequirementsSatisfied`
(core/service) and `validate` / `validateEnvironment` (core/validation).
The construction context (`Stack`) is an external collaborator the engine
only threads through, so handlers are embedded as pure functions of the
data they receive; every handler invocation is additionally recorded in an
event trace so that claims about which handlers run can be stated. -/

/-- The opaque output bag a provision handler returns: a JS object
mapping names to resource tokens.  JS objects are always truthy, which is
why presence of a key models the `!requirements[name]` check below. -/
abbrev Output := List (String × Nat)

/-- The three operation scopes. -/
inductive Scope where
  | deployable
  | destroyable
  | preparable
deriving DecidableEq, Repr

/-- One property of a service schema: a validity check for present values
(standing for `type`/`enum`/bounds keywords) and an optional declared
default. -/
structure PropSpec where
  check : CVal → Bool
  dflt : Option CVal := none

/-- The composed structural schema of a service definition. -/
structure Schema where
  properties : List (String × PropSpec)
  required : List String := []

/-- A service's environment-variable requirement. -/
structure EnvVar where
  name : String
  required : Bool
deriving DecidableEq, Repr

/-- The view of a provisionable a handler receives: its configuration,
its provisions and its collected requirements. -/
structure PView where
  config : Config
  provisions : Output
  requirements : List (String × Output)

/-- A scope (provisioning) handler: `(provisionable, stack) → provisions`
with the stack opaque. -/
abbrev ScopeHandlerFn := PView → Output

/-- An association handler: `(linked provisionable, stack, owner) →
output` with the stack opaque. -/
abbrev AssocHandlerFn := PView → PView → Output

/-- An association declaration: target-type filter (`with`), predicate
(`where`), requirement flag, handler. -/
structure Assoc where
  withType : Option String := none
  whereFn : Option (Config → Config → Bool) := none
  requirement : Bool := false
  handler : AssocHandlerFn

/-- A service definition: (provider, type) identity, schema, environment
requirements, per-scope handlers and per-scope named associations. -/
structure ServiceDef where
  provider : String
  type : String
  schemaId : String
  schema : Schema
  environment : List EnvVar := []
  handlers : List (Scope × ScopeHandlerFn) := []
  associations : List (Scope × List (String × Assoc)) := []

/-- A graph node (`BaseProvisionable`). -/
structure Provisionable where
  id : String
  config : Config
  service : ServiceDef
  requirements : List (String × Output) := []
  provisions : Output := []
  sideEffects : List (String × Output) := []
  registered : Bool := false
  resourceId : String := ""

/-- One resolved association edge (`AssociatedProvisionable`): the
association's name, the linked node (held by id — node objects are shared
by reference in the source, so mutations are visible through the map) and
the association's handler. -/
structure Link where
  name : String
  target : String
  handler : AssocHandlerFn
  requirement : Bool

/-- The handler-invocation trace: the node's own scope handler running
(with the configuration it observed and the provisions it returned), or an
association handler running (tagged with the call site: requirement or
side-effect resolution). -/
inductive Event where
  | scopeRun (pid : String) (cfgSeen : Config) (out : Output)
  | assocRun (isReq : Bool) (owner : String) (name : String) (target : String) (out : Output)
deriving DecidableEq, Repr

/-- The operation-level failures. -/
inductive Err where
  | fuel
  | unknownId (id : String)
  | validation (schemaId : String) (fields : List String)
  | missingRequirement (name : String) (serviceType : String)
  | missingEnvironment (names : List String)
deriving DecidableEq, Repr

/-- The mutable operation state: the scope, the node map (insertion
ordered, keyed by id), the precomputed requirement- and side-effect-edge
maps, and the handler-invocation trace. -/
structure OpState where
  scope : Scope
  provisionables : List (String × Provisionable)
  reqLinks : List (String × List Link)
  seLinks : List (String × List Link)
  events : List Event

/-- `getProvisionableResourceId`:
`{name-or-type}-{provider}-{region-or-'default'}` with JS falsiness on
the fallbacks (`undefined` interpolates as the string "undefined"). -/
def getProvisionableResourceId (config : Config) : String :=
  (firstTruthy [cfgStr config "name", cfgStr config "type"] "undefined") ++ "-" ++
    ((cfgStr config "provider").getD "undefined") ++ "-" ++
    firstTruthy [cfgStr config "region"] "default"

/-- Modelled from the spec: `Registry.fromConfig` (core/registry is
absent from the sources) binds the matching service definition by
(provider, type) lookup (§4.4); `none` stands for the unknown-service-type
failure. -/
def registryFromConfig (registry : List ServiceDef) (config : Config) :
    Option ServiceDef :=
  registry.find? fun svc =>
    cfgStr config "provider" == some svc.provider &&
      cfgStr config "type" == some svc.type

/-- `getProvisionable`: content-hash id, bound definition, empty collected
outputs, unregistered. -/
def getProvisionable (registry : List ServiceDef) (config : Config) :
    Option Provisionable :=
  (registryFromConfig registry config).map fun service =>
    { id := hashObject config
      config := config
      service := service
      requirements := []
      provisions := []
      sideEffects := []
      registered := false
      resourceId := getProvisionableResourceId config }

/-- The associations a definition declares for a scope
(`get(assocs, scope, {})`). -/
def scopeAssociations (svc : ServiceDef) (scope : Scope) : List (String × Assoc) :=
  (alookup scope svc.associations).getD []

/-- The inner loop of `setupProvisionables`: walk every candidate node,
skipping it when the association's type filter is set (and — being a JS
truthiness check — non-empty) yet differs from the candidate's service
type, or when the declared predicate rejects the pair; every surviving
candidate becomes one edge. -/
def linksForAssoc (ownerConfig : Config) (name : String) (a : Assoc) :
    List Provisionable → List Link
  | [] => []
  | linked :: rest =>
    if (match a.withType with
        | some t => decide (t ≠ "") && decide (linked.service.type ≠ t)
        | none => false) then
      linksForAssoc ownerConfig name a rest
    else if (match a.whereFn with
             | some f => !f ownerConfig linked.config
             | none => false) then
      linksForAssoc ownerConfig name a rest
    else
      { name := name, target := linked.id, handler := a.handler,
        requirement := a.requirement } :: linksForAssoc ownerConfig name a rest

/-- The middle loop of `setupProvisionables`: each association entry
appends its edges to the owner's requirement list when it is a
requirement, to the side-effect list otherwise. -/
def linksForEntries (ownerConfig : Config) (nodes : List Provisionable) :
    List (String × Assoc) → List Link × List Link
  | [] => ([], [])
  | (name, a) :: rest =>
    let ls := linksForAssoc ownerConfig name a nodes
    let rs := linksForEntries ownerConfig nodes rest
    if a.requirement then (ls ++ rs.1, rs.2) else (rs.1, ls ++ rs.2)

/-- The first loop of `setupProvisionables`: build the node map
(`Map.set` keyed by content-hash id, so structurally identical
configurations collapse). -/
def buildProvAux (registry : List ServiceDef)
    (acc : List (String × Provisionable)) :
    List Config → Option (List (String × Provisionable))
  | [] => some acc
  | cfg :: rest =>
    match getProvisionable registry cfg with
    | none => none
    | some p => buildProvAux registry (msetKey acc p.id p) rest

/-- The `StageOperation` constructor / `setupProvisionables`: build the
node map, then precompute every node's requirement- and side-effect-edge
lists against the full node set. -/
def setupOperation (registry : List ServiceDef) (scope : Scope)
    (services : List Config) : Option OpState :=
  match buildProvAux registry [] services with
  | none => none
  | some provs =>
    let nodes := provs.map (·.2)
    some { scope := scope
           provisionables := provs
           reqLinks := provs.map fun kp =>
             (kp.1, (linksForEntries kp.2.config nodes
               (scopeAssociations kp.2.service scope)).1)
           seLinks := provs.map fun kp =>
             (kp.1, (linksForEntries kp.2.config nodes
               (scopeAssociations kp.2.service scope)).2)
           events := [] }

/-- Modelled from the spec: default application by the external
Ajv-based Config Validator (§6) under `useDefaults` — absent fields with a
declared default are filled in on the working copy. -/
def applyDefaults (sch : Schema) (cfg : Config) : Config :=
  sch.properties.foldl
    (fun acc kv =>
      match kv.2.dflt with
      | some d => if (alookup kv.1 acc).isNone then acc ++ [(kv.1, d)] else acc
      | none => acc)
    cfg

/-- Modelled from the spec: `removeAdditional` — unrecognized properties
are dropped from the working copy. -/
def removeAdditional (sch : Schema) (cfg : Config) : Config :=
  cfg.filter fun kv => (alookup kv.1 sch.properties).isSome

/-- Modelled from the spec: `allErrors` — one descriptor per offending
field (failing per-field checks, then missing required fields), collected
exhaustively before failing. -/
def collectErrors (sch : Schema) (cfg : Config) : List String :=
  (sch.properties.filterMap fun kv =>
    match alookup kv.1 cfg with
    | some v => if kv.2.check v then none else some kv.1
    | none => none) ++
    sch.required.filter fun k => (alookup k cfg).isNone

/-- `validate(schemaId, data, { useDefaults: true })` as `register` calls
it: the data is deep-cloned, defaults applied and unknown fields removed
on the clone, all errors collected, and the clean copy returned — the
original is untouched (value semantics model the `cloneDeep`). -/
def validateCfg (sch : Schema) (cfg : Config) : Except (List String) Config :=
  let cleaned := removeAdditional sch (applyDefaults sch cfg)
  let errs := collectErrors sch cleaned
  if errs.isEmpty then .ok cleaned else .error errs

/-- `assertRequirementsSatisfied`: the first association declared as a
requirement for the scope with no (truthy, i.e. present) output in the
node's requirements aborts with a missing-requirement error naming the
association and the service type. -/
def assertRequirementsSatisfied (p : Provisionable) (scope : Scope) : Option Err :=
  match alookup scope p.service.associations with
  | none => none
  | some assocs =>
    match assocs.find? (fun kv =>
        kv.2.requirement && (alookup kv.1 p.requirements).isNone) with
    | some kv => some (.missingRequirement kv.1 p.service.type)
    | none => none

/-- The handler view of a node's current state. -/
def viewOf (p : Provisionable) : PView :=
  { config := p.config, provisions := p.provisions, requirements := p.requirements }

/-- In-place update of one node in the map (the source mutates the shared
node object). -/
def updateProv (st : OpState) (pid : String) (f : Provisionable → Provisionable) :
    OpState :=
  { st with provisionables :=
      match alookup pid st.provisionables with
      | some q => msetKey st.provisionables pid (f q)
      | none => st.provisionables }

/-- `StageOperation.registerAssociated`: walk the links in order; for each
one, recursively register the linked node, invoke the association handler
with the linked node (its provisions replaced by the register result) and
the owner, record the invocation, and assign the output under the
association's name — later links overwrite earlier ones under the same
name, exactly like `Object.assign`. -/
def registerAssociated
    (reg : OpState → String → OpState × Except Err Output)
    (ownerId : String) (isReq : Bool) :
    OpState → List Link → List (String × Output) →
      OpState × Except Err (List (String × Output))
  | st, [], acc => (st, .ok acc)
  | st, link :: rest, acc =>
    match reg st link.target with
    | (st1, .error e) => (st1, .error e)
    | (st1, .ok linkedProvisions) =>
      match alookup link.target st1.provisionables,
            alookup ownerId st1.provisionables with
      | some target, some owner =>
        let out := link.handler
          { config := target.config, provisions := linkedProvisions,
            requirements := target.requirements }
          (viewOf owner)
        let st2 := { st1 with
          events := st1.events ++ [.assocRun isReq ownerId link.name link.target out] }
        registerAssociated reg ownerId isReq st2 rest (jsAssign acc link.name out)
      | _, _ => (st1, .error (.unknownId link.target))

/-- `StageOperation.register`: memoized two-phase registration.  Bail out
with the cached provisions when the node is registered; otherwise validate
the configuration (discarding the validated copy, as the source does),
resolve and assign the requirement edges, assert the declared requirements
are satisfied, run the scope handler if one exists (empty provisions
otherwise) while setting the memo flag, then resolve the side-effect
edges, and return the node's provisions.  The fuel argument makes the
recursion total; exhaustion models the source's unbounded recursion on
cyclic graphs. -/
def register : Nat → OpState → String → OpState × Except Err Output
  | 0, st, _ => (st, .error .fuel)
  | fuel + 1, st, pid =>
    match alookup pid st.provisionables with
    | none => (st, .error (.unknownId pid))
    | some p =>
      if p.registered then (st, .ok p.provisions)
      else
        match validateCfg p.service.schema p.config with
        | .error errs => (st, .error (.validation p.service.schemaId errs))
        | .ok _ =>
          match registerAssociated (fun s q => register fuel s q) pid true st
              ((alookup pid st.reqLinks).getD []) [] with
          | (st1, .error e) => (st1, .error e)
          | (st1, .ok reqOut) =>
            let st2 := updateProv st1 pid fun q => { q with requirements := reqOut }
            match alookup pid st2.provisionables with
            | none => (st2, .error (.unknownId pid))
            | some p2 =>
              match assertRequirementsSatisfied p2 st2.scope with
              | some e => (st2, .error e)
              | none =>
                let provs := match alookup st2.scope p2.service.handlers with
                  | some h => h (viewOf p2)
                  | none => []
                let newEvents := match alookup st2.scope p2.service.handlers with
                  | some _ => [Event.scopeRun pid p2.config provs]
                  | none => []
                let st3 := updateProv
                  { st2 with events := st2.events ++ newEvents } pid
                  fun q => { q with provisions := provs, registered := true }
                match registerAssociated (fun s q => register fuel s q) pid false st3
                    ((alookup pid st3.seLinks).getD []) [] with
                | (st4, .error e) => (st4, .error e)
                | (st4, .ok seOut) =>
                  let st5 := updateProv st4 pid fun q => { q with sideEffects := seOut }
                  match alookup pid st5.provisionables with
                  | some q => (st5, .ok q.provisions)
                  | none => (st5, .error (.unknownId pid))

/-- lodash `uniqBy(vars, e => e.name)`: keeps the first variable carrying
each name. -/
def uniqByNameAux (seen : List String) : List EnvVar → List EnvVar
  | [] => []
  | v :: rest =>
    if v.name ∈ seen then uniqByNameAux seen rest
    else v :: uniqByNameAux (v.name :: seen) rest

/-- lodash `uniqBy` on variable names. -/
def uniqByName (l : List EnvVar) : List EnvVar :=
  uniqByNameAux [] l

/-- `StageOperation.environment()`: the services' environment lists,
empty lists filtered out, flattened and de-duplicated by name. -/
def operationEnvironment (st : OpState) : List EnvVar :=
  uniqByName (((st.provisionables.map fun kp => kp.2.service.environment).filter
    fun l => !l.isEmpty).flatten)

/-- `validateEnvironment`: collect every required variable whose name is
absent from the execution environment; fail with the full list when any
is missing. -/
def validateEnvironment (required : List EnvVar) (env : List String) : Option Err :=
  let missing := (required.filter fun v => v.required && !env.contains v.name).map (·.name)
  if missing.isEmpty then none else some (.missingEnvironment missing)

/-- The registration loop of `process()`. -/
def registerAll (fuel : Nat) : OpState → List String → OpState × Except Err Unit
  | st, [] => (st, .ok ())
  | st, pid :: rest =>
    match register fuel st pid with
    | (st1, .error e) => (st1, .error e)
    | (st1, .ok _) => registerAll fuel st1 rest

/-- `StageOperation.process()`: validate the aggregated environment
first — failing before any node is registered — then register every node
(the final `stack.toObject()` emission belongs to the external backend and
is not modelled). -/
def process (fuel : Nat) (st : OpState) (env : List String) :
    OpState × Except Err Unit :=
  match validateEnvironment (operationEnvironment st) env with
  | some e => (st, .error e)
  | none => registerAll fuel st (st.provisionables.map (·.1))

/-- Whether a node's definition has a handler for the operation scope. -/
def hasScopeHandler (scope : Scope) (p : Provisionable) : Bool :=
  (alookup scope p.service.handlers).isSome

/-- How many times a node's own scope handler has run. -/
def scopeRunCount (pid : String) (evs : List Event) : Nat :=
  (evs.filter fun e => match e with
    | .scopeRun q _ _ => q == pid
    | _ => false).length

/-- Whether an event is a run of the node's own scope handler. -/
def ownScopeEvent (pid : String) : Event → Bool
  | .scopeRun q _ _ => q == pid
  | _ => false

/-- Whether an event is a run of one of the node's own side-effect
association handlers. -/
def ownSideEffectEvent (pid : String) : Event → Bool
  | .assocRun isReq owner _ _ _ => !isReq && owner == pid
  | _ => false

/-- The state evolution register steps respect: the scope and the edge
maps are read-only, the trace only grows, the node-map keys are stable,
and every node keeps its identity, configuration and definition — a node
that was already registered is not touched at all. -/
structure StepOK (st st' : OpState) : Prop where
  scope_eq : st'.scope = st.scope
  req_eq : st'.reqLinks = st.reqLinks
  se_eq : st'.seLinks = st.seLinks
  events_grow : ∃ tail, st'.events = st.events ++ tail
  keys_eq : ∀ k : String,
    (alookup k st'.provisionables).isSome = (alookup k st.provisionables).isSome
  meta_eq : ∀ k p, alookup k st.provisionables = some p →
    ∃ p', alookup k st'.provisionables = some p' ∧ p'.id = p.id ∧
      p'.config = p.config ∧ p'.service = p.service ∧
      (p.registered = true → p' = p)

/-- The requirement-gate invariant for a node `pid` with a declared but
unsatisfiable requirement association `name`: the node exists,
unregistered, the association is declared as a requirement for the active
scope, no requirement edge of the node carries the association's name, and
no trace event is a run of the node's own scope handler or of one of its
side-effect handlers. -/
def GateInv (st : OpState) (pid name : String) : Prop :=
  (∃ p, alookup pid st.provisionables = some p ∧ p.registered = false ∧
    ∃ a, alookup name (scopeAssociations p.service st.scope) = some a ∧
      a.requirement = true) ∧
  (∀ l ∈ (alookup pid st.reqLinks).getD [], l.name ≠ name) ∧
  (∀ e ∈ st.events, ownScopeEvent pid e = false ∧ ownSideEffectEvent pid e = false)

/-- Trace faithfulness: every recorded scope-handler run carries the
configuration stored for its node (the engine never rewrites a node's
configuration, so this is an invariant of registration). -/
def EvOK (st : OpState) : Prop :=
  ∀ q cfg o, Event.scopeRun q cfg o ∈ st.events →
    ∃ pq, alookup q st.provisionables = some pq ∧ cfg = pq.config

/-! ## Concrete scenarios used by the claim witnesses and counterexamples -/

/-- An empty operation state (used as a `getD` default). -/
def emptyState : OpState :=
  { scope := Scope.deployable, provisionables := [], reqLinks := [],
    seLinks := [], events := [] }

/-- A schema with no properties and no required fields: every
configuration validates. -/
def trivialSchema : Schema :=
  { properties := [], required := [] }

/-- Requirement-association handler whose output records how many
provisions the owner carried when it ran. -/
def c1HandlerR : AssocHandlerFn := fun _ ov => [("x", ov.provisions.length)]

/-- Scope handler whose output copies the `x` field collected from the
`t` requirement. -/
def c1HandlerM : ScopeHandlerFn := fun v =>
  [("n", (match alookup "t" v.requirements with
          | some o => (alookup "x" o).getD 99
          | none => 99))]

/-- Scope handler of the provider-like service. -/
def c1HandlerT : ScopeHandlerFn := fun _ => [("p", 7)]

/-- Side-effect association handler of the provider-like service. -/
def c1HandlerS : AssocHandlerFn := fun _ _ => [("s", 5)]

/-- A database-like service requiring a `provider`-typed node under the
association name `t`. -/
def c1SvcMysql : ServiceDef :=
  { provider := "aws", type := "mysql", schemaId := "services/aws/mysql",
    schema := trivialSchema,
    handlers := [(Scope.deployable, c1HandlerM)],
    associations := [(Scope.deployable,
      [("t", { withType := some "provider", requirement := true,
               handler := c1HandlerR })])] }

/-- A provider-like service with a side-effect association back onto
`mysql`-typed nodes. -/
def c1SvcProvider : ServiceDef :=
  { provider := "aws", type := "provider", schemaId := "services/aws/provider",
    schema := trivialSchema,
    handlers := [(Scope.deployable, c1HandlerT)],
    associations := [(Scope.deployable,
      [("alarm", { withType := some "mysql", requirement := false,
                   handler := c1HandlerS })])] }

/-- The database node's configuration. -/
def c1CfgM : Config :=
  [("name", CVal.s "db1"), ("provider", CVal.s "aws"), ("type", CVal.s "mysql")]

/-- The provider node's configuration. -/
def c1CfgP : Config :=
  [("name", CVal.s "prov"), ("provider", CVal.s "aws"), ("type", CVal.s "provider")]

/-- An operation over both nodes: the database requires the provider,
the provider side-effects the database — a requirement/side-effect
cycle. -/
def c1St : OpState :=
  (setupOperation [c1SvcMysql, c1SvcProvider] Scope.deployable
    [c1CfgM, c1CfgP]).getD emptyState

/-- An operation over the database node only: its requirement
association `t` has no candidate. -/
def c3St : OpState :=
  (setupOperation [c1SvcMysql, c1SvcProvider] Scope.deployable [c1CfgM]).getD emptyState

/-- The database provisionable as the constructor builds it. -/
def c3Prov : Provisionable :=
  { id := hashObject c1CfgM, config := c1CfgM, service := c1SvcMysql,
    requirements := [], provisions := [], sideEffects := [], registered := false,
    resourceId := getProvisionableResourceId c1CfgM }

/-- The service of the already-registered node below. -/
def c1WSvc : ServiceDef :=
  { provider := "aws", type := "mysql", schemaId := "m", schema := trivialSchema }

/-- An already-registered node with cached provisions. -/
def c1RegProv : Provisionable :=
  { id := "a", config := [], service := c1WSvc,
    provisions := [("db", 5)], registered := true }

/-- A state holding one registered node. -/
def c1WSt : OpState :=
  { scope := Scope.deployable, provisionables := [("a", c1RegProv)],
    reqLinks := [], seLinks := [], events := [] }

/-- A registry binding the configurations below. -/
def c2Registry : List ServiceDef :=
  [{ provider := "aws", type := "mysql", schemaId := "services/aws/mysql",
     schema := trivialSchema }]

/-- A configuration. -/
def c2CfgA : Config :=
  [("name", CVal.s "db"), ("provider", CVal.s "aws"), ("type", CVal.s "mysql")]

/-- The same content with the keys in a different order. -/
def c2CfgB : Config :=
  [("type", CVal.s "mysql"), ("name", CVal.s "db"), ("provider", CVal.s "aws")]

/-- A schema declaring a default for the `port` property, which is also
required. -/
def c5Schema : Schema :=
  { properties :=
      [("name", { check := fun v => match v with | .s _ => true | _ => false }),
       ("provider", { check := fun _ => true }),
       ("type", { check := fun _ => true }),
       ("port", { check := fun v => match v with | .n _ => true | _ => false,
                  dflt := some (CVal.n 3306) })],
    required := ["port"] }

/-- A scope handler recording whether the configuration it observes
carries the `port` field. -/
def c5Handler : ScopeHandlerFn := fun v =>
  [("sawPort", if (alookup "port" v.config).isSome then 1 else 0)]

/-- The service bound to the defaulting schema. -/
def c5Svc : ServiceDef :=
  { provider := "aws", type := "mysql", schemaId := "services/aws/mysql",
    schema := c5Schema, handlers := [(Scope.deployable, c5Handler)] }

/-- A configuration without the defaulted `port` field. -/
def c5Cfg : Config :=
  [("name", CVal.s "db1"), ("provider", CVal.s "aws"), ("type", CVal.s "mysql")]

/-- What validation returns for that configuration: the clean copy with
the default applied. -/
def c5Defaulted : Config :=
  [("name", CVal.s "db1"), ("provider", CVal.s "aws"), ("type", CVal.s "mysql"),
   ("port", CVal.n 3306)]

/-- The single-node operation for the defaulting scenario. -/
def c5St : OpState :=
  (setupOperation [c5Svc] Scope.deployable [c5Cfg]).getD emptyState

/-- A service requiring `AWS_KEY` and optionally `OPT`. -/
def c6SvcA : ServiceDef :=
  { provider := "aws", type := "mysql", schemaId := "a", schema := trivialSchema,
    environment := [⟨"AWS_KEY", true⟩, ⟨"OPT", false⟩] }

/-- A service requiring `AWS_KEY` and `TOKEN`. -/
def c6SvcB : ServiceDef :=
  { provider := "aws", type := "monitoring", schemaId := "b",
    schema := trivialSchema,
    environment := [⟨"AWS_KEY", true⟩, ⟨"TOKEN", true⟩] }

/-- A two-node operation whose services demand environment variables. -/
def c6St : OpState :=
  { scope := Scope.deployable,
    provisionables :=
      [("a", { id := "a", config := [], service := c6SvcA }),
       ("b", { id := "b", config := [], service := c6SvcB })],
    reqLinks := [], seLinks := [], events := [] }

/-- A project configuration with explicit provider, region and name. -/
def c7Project : ProjectConfiguration :=
  { provider := some "aws", region := some "eu-central-1", name := some "myproj",
    state := [("bucket", CVal.s "my-bucket")] }

/-- An application configuration owning a domain. -/
def c7AppCfg : Config :=
  [("name", CVal.s "myapp"), ("provider", CVal.s "aws"), ("type", CVal.s "app"),
   ("region", CVal.s "eu-central-1"), ("domain", CVal.s "app.stackmate.io")]

/-- A base schema fragment defining `size` with default `small`. -/
def c8Base : JsonSchema :=
  { properties :=
      [("name", JVal.obj [("type", Prim.str "string")]),
       ("size", JVal.obj [("type", Prim.str "string"),
                          ("default", Prim.str "small"),
                          ("minimum", Prim.num 1)])],
    required := ["name", "size"],
    rest := [("type", JVal.prim (Prim.str "object")),
             ("additionalProperties", JVal.prim (Prim.bool false))] }

/-- An addition fragment redefining `size` with default `large`. -/
def c8Addition : JsonSchema :=
  { properties :=
      [("size", JVal.obj [("type", Prim.str "string"),
                          ("default", Prim.str "large")])],
    required := ["size", "version"],
    rest := [] }

/-- A service with no handler at all (in particular none for the
deployable scope). -/
def c9Svc : ServiceDef :=
  { provider := "aws", type := "dns", schemaId := "d", schema := trivialSchema }

/-- The handlerless node. -/
def c9Prov : Provisionable :=
  { id := "d1", config := [("type", CVal.s "dns")], service := c9Svc }

/-- A single-node operation around the handlerless node. -/
def c9St : OpState :=
  { scope := Scope.deployable, provisionables := [("d1", c9Prov)],
    reqLinks := [], seLinks := [], events := [] }

/-- First association handler for the duplicate-name scenario. -/
def c10HandlerA : AssocHandlerFn := fun _ _ => [("r", 1)]

/-- Second association handler for the duplicate-name scenario. -/
def c10HandlerB : AssocHandlerFn := fun _ _ => [("r", 2)]

/-- The shared definition of the three nodes below. -/
def c10Svc : ServiceDef :=
  { provider := "aws", type := "mysql", schemaId := "m", schema := trivialSchema }

/-- A three-node state: an owner and two link targets. -/
def c10St : OpState :=
  { scope := Scope.deployable,
    provisionables :=
      [("o", { id := "o", config := [], service := c10Svc }),
       ("a", { id := "a", config := [], service := c10Svc }),
       ("b", { id := "b", config := [], service := c10Svc })],
    reqLinks := [], seLinks := [], events := [] }

/-- First edge named `db`. -/
def c10L1 : Link :=
  { name := "db", target := "a", handler := c10HandlerA, requirement := false }

/-- Second edge under the same name `db`. -/
def c10L2 : Link :=
  { name := "db", target := "b", handler := c10HandlerB, requirement := false }

/-- Whether an event is a run of one of the owner's association handlers
in the given phase. -/
def ownAssocEvent (isReq : Bool) (ownerId : String) : Event → Bool
  | .assocRun b o _ _ _ => b == isReq && o == ownerId
  | _ => false

/-- A configuration violating two property checks at once: `name` is not
a string and `port` is not a number. -/
def c5BadCfg : Config :=
  [("name", CVal.n 1), ("provider", CVal.s "aws"), ("type", CVal.s "mysql"),
   ("port", CVal.s "x")]

/-- The single-node operation around the doubly-invalid configuration. -/
def c5BadSt : OpState :=
  (setupOperation [c5Svc] Scope.deployable [c5BadCfg]).getD emptyState

/-- The doubly-invalid node as the constructor builds it. -/
def c5BadProv : Provisionable :=
  { id := hashObject c5BadCfg, config := c5BadCfg, service := c5Svc,
    requirements := [], provisions := [], sideEffects := [], registered := false,
    resourceId := getProvisionableResourceId c5BadCfg }

/-- The node `getProvisionable` builds for the first ordering. -/
def c2ProvA : Provisionable :=
  { id := hashObject c2CfgA, config := c2CfgA,
    service := { provider := "aws", type := "mysql",
                 schemaId := "services/aws/mysql", schema := trivialSchema },
    requirements := [], provisions := [], sideEffects := [], registered := false,
    resourceId := getProvisionableResourceId c2CfgA }

/-- The requirement association the database-like service declares. -/
def c3Assoc : Assoc :=
  { withType := some "provider", requirement := true, handler := c1HandlerR }

/-- The provider provisionable as the constructor builds it. -/
def c4ProvP : Provisionable :=
  { id := hashObject c1CfgP, config := c1CfgP, service := c1SvcProvider,
    requirements := [], provisions := [], sideEffects := [], registered := false,
    resourceId := getProvisionableResourceId c1CfgP }

end Stackmate

namespace Stackmate

/-! ## Map lemmas -/

theorem alookup_msetKey {α : Type} (m : List (String × α)) (k k' : String) (v : α) :
    alookup k (msetKey m k' v) = if k' = k then some v else alookup k m := by
  induction m with
  | nil => simp [msetKey, alookup]
  | cons kv rest ih =>
    obtain ⟨k0, v0⟩ := kv
    simp only [msetKey]
    by_cases h0 : k0 = k'
    · subst h0
      simp only [if_pos rfl, alookup]
      by_cases h1 : k0 = k <;> simp [h1]
    · simp only [if_neg h0, alookup]
      by_cases h1 : k0 = k
      · subst h1
        have hkk : ¬(k' = k0) := fun h => h0 h.symm
        simp [hkk]
      · simp [h1, ih]

theorem alookup_append {α : Type} (a b : List (String × α)) (k : String) :
    alookup k (a ++ b) =
      match alookup k a with
      | some v => some v
      | none => alookup k b := by
  induction a with
  | nil => simp [alookup]
  | cons kv rest ih =>
    obtain ⟨k0, v0⟩ := kv
    simp only [List.cons_append, alookup]
    by_cases h : k0 = k
    · simp [h]
    · simp [h, ih]

theorem alookup_mem {α : Type} {m : List (String × α)} {k : String} {v : α}
    (h : alookup k m = some v) : (k, v) ∈ m := by
  induction m with
  | nil => simp [alookup] at h
  | cons kv rest ih =>
    obtain ⟨k0, v0⟩ := kv
    by_cases h0 : k0 = k
    · subst h0
      simp only [alookup, if_pos rfl] at h
      injection h with h
      subst h
      exact List.mem_cons_self _ _
    · simp only [alookup, if_neg h0] at h
      exact List.mem_cons_of_mem _ (ih h)

theorem alookup_isSome_msetKey {α : Type} (m : List (String × α)) (k k' : String) (v : α)
    (hk : (alookup k' m).isSome = true) :
    (alookup k (msetKey m k' v)).isSome = (alookup k m).isSome := by
  rw [alookup_msetKey]
  by_cases h : k' = k
  · subst h
    simp [hk]
  · simp [h]

/-! ## StepOK algebra -/

theorem StepOK.refl (st : OpState) : StepOK st st := by
  refine ⟨rfl, rfl, rfl, ⟨[], by simp⟩, fun _ => rfl, ?_⟩
  intro k p h
  exact ⟨p, h, rfl, rfl, rfl, fun _ => rfl⟩

theorem StepOK.trans {st1 st2 st3 : OpState} (a : StepOK st1 st2) (b : StepOK st2 st3) :
    StepOK st1 st3 := by
  refine ⟨by rw [b.scope_eq, a.scope_eq], by rw [b.req_eq, a.req_eq],
    by rw [b.se_eq, a.se_eq], ?_, fun k => by rw [b.keys_eq, a.keys_eq], ?_⟩
  · obtain ⟨t1, h1⟩ := a.events_grow
    obtain ⟨t2, h2⟩ := b.events_grow
    exact ⟨t1 ++ t2, by rw [h2, h1, List.append_assoc]⟩
  · intro k p h
    obtain ⟨p1, h1, hid1, hc1, hs1, hr1⟩ := a.meta_eq k p h
    obtain ⟨p2, h2, hid2, hc2, hs2, hr2⟩ := b.meta_eq k p1 h1
    refine ⟨p2, h2, hid2.trans hid1, hc2.trans hc1, hs2.trans hs1, ?_⟩
    intro hreg
    have e1 := hr1 hreg
    subst e1
    exact hr2 hreg

/-- Appending trace events is a StepOK step. -/
theorem StepOK.addEvents (st : OpState) (tail : List Event) :
    StepOK st { st with events := st.events ++ tail } := by
  refine ⟨rfl, rfl, rfl, ⟨tail, rfl⟩, fun _ => rfl, ?_⟩
  intro k p h
  exact ⟨p, h, rfl, rfl, rfl, fun _ => rfl⟩

/-- Updating a node that was unregistered at the reference state with a
field update that keeps its identity, configuration and definition is a
StepOK step relative to that reference state. -/
theorem StepOK.updateUnregistered {st0 st : OpState} (h01 : StepOK st0 st)
    (pid : String) (f : Provisionable → Provisionable)
    (hf : ∀ q, (f q).id = q.id ∧ (f q).config = q.config ∧ (f q).service = q.service)
    (hunreg : ∀ p, alookup pid st0.provisionables = some p → p.registered = false) :
    StepOK st0 (updateProv st pid f) := by
  unfold updateProv
  cases hq : alookup pid st.provisionables with
  | none => exact h01
  | some q =>
    refine ⟨h01.scope_eq, h01.req_eq, h01.se_eq, h01.events_grow, ?_, ?_⟩
    · intro k
      have : (alookup k (msetKey st.provisionables pid (f q))).isSome =
          (alookup k st.provisionables).isSome :=
        alookup_isSome_msetKey _ _ _ _ (by simp [hq])
      simp only [this]
      exact h01.keys_eq k
    · intro k p h
      by_cases hk : pid = k
      · subst hk
        obtain ⟨p1, h1, hid1, hc1, hs1, _⟩ := h01.meta_eq pid p h
        have hp1 : p1 = q := by rw [h1] at hq; exact (Option.some.injEq _ _).mp hq
        subst hp1
        refine ⟨f p1, ?_, ?_, ?_, ?_, ?_⟩
        · rw [alookup_msetKey]
          simp
        · rw [(hf p1).1, hid1]
        · rw [(hf p1).2.1, hc1]
        · rw [(hf p1).2.2, hs1]
        · intro hreg
          exact absurd hreg (by simp [hunreg p h])
      · obtain ⟨p1, h1, hid1, hc1, hs1, hr1⟩ := h01.meta_eq k p h
        refine ⟨p1, ?_, hid1, hc1, hs1, hr1⟩
        rw [alookup_msetKey]
        simp [hk, h1]

theorem alookup_jsAssign_isSome {α : Type} (m : List (String × α)) (k k' : String) (v : α)
    (h : (alookup k (jsAssign m k' v)).isSome = true) :
    k = k' ∨ (alookup k m).isSome = true := by
  unfold jsAssign at h
  rw [alookup_msetKey] at h
  by_cases hk : k' = k
  · exact Or.inl hk.symm
  · right
    simpa [hk] using h

theorem alookup_updateProv_self (st : OpState) (pid : String)
    (f : Provisionable → Provisionable) :
    alookup pid (updateProv st pid f).provisionables =
      (alookup pid st.provisionables).map f := by
  unfold updateProv
  cases h : alookup pid st.provisionables with
  | none => simp [h]
  | some q => simp [h, alookup_msetKey]

theorem updateProv_events (st : OpState) (pid : String)
    (f : Provisionable → Provisionable) :
    (updateProv st pid f).events = st.events := by
  unfold updateProv
  cases alookup pid st.provisionables <;> rfl

theorem alookup_updateProv_self_some {st : OpState} {pid : String}
    {f : Provisionable → Provisionable} {p : Provisionable}
    (h : alookup pid st.provisionables = some p) :
    alookup pid (updateProv st pid f).provisionables = some (f p) := by
  rw [alookup_updateProv_self, h]
  rfl

theorem updateProv_links (st : OpState) (pid : String)
    (f : Provisionable → Provisionable) :
    (updateProv st pid f).reqLinks = st.reqLinks ∧
      (updateProv st pid f).seLinks = st.seLinks ∧
      (updateProv st pid f).scope = st.scope := by
  unfold updateProv
  cases alookup pid st.provisionables <;> exact ⟨rfl, rfl, rfl⟩

/-! ## Step facts for the registration engine -/

theorem registerAssociated_step
    (reg : OpState → String → OpState × Except Err Output)
    (hreg : ∀ st q st' r, reg st q = (st', r) → StepOK st st' ∧
      ∀ o, r = .ok o → ∃ q', alookup q st'.provisionables = some q' ∧
        q'.registered = true ∧ q'.provisions = o)
    (ownerId : String) (isReq : Bool) :
    ∀ (links : List Link) (st : OpState) (acc : List (String × Output))
      (st' : OpState) (r : Except Err (List (String × Output))),
      registerAssociated reg ownerId isReq st links acc = (st', r) →
      StepOK st st' ∧
      ∀ m, r = .ok m →
        (∀ l ∈ links, ∃ q', alookup l.target st'.provisionables = some q' ∧
          q'.registered = true) ∧
        (∀ k, (alookup k m).isSome = true →
          (alookup k acc).isSome = true ∨ ∃ l ∈ links, l.name = k) := by
  intro links
  induction links with
  | nil =>
    intro st acc st' r h
    simp only [registerAssociated] at h
    injection h with h1 h2
    subst h1
    subst h2
    refine ⟨StepOK.refl st, ?_⟩
    intro m hm
    injection hm with hm
    subst hm
    exact ⟨by simp, fun k hk => Or.inl hk⟩
  | cons l rest ih =>
    intro st acc st' r h
    simp only [registerAssociated] at h
    split at h
    next st1 e heq =>
      injection h with h1 h2
      subst h1
      subst h2
      refine ⟨(hreg _ _ _ _ heq).1, ?_⟩
      intro m hm
      exact absurd hm (by simp)
    next st1 lp heq =>
      have hstep1 : StepOK st st1 := (hreg _ _ _ _ heq).1
      have htgt : ∃ q', alookup l.target st1.provisionables = some q' ∧
          q'.registered = true ∧ q'.provisions = lp :=
        (hreg _ _ _ _ heq).2 lp rfl
      split at h
      next target owner htl hol =>
        obtain ⟨hstep3, hok⟩ := ih _ _ _ _ h
        have hstepMid : StepOK st1 st' :=
          (StepOK.addEvents st1 _).trans hstep3
        refine ⟨hstep1.trans hstepMid, ?_⟩
        intro m hm
        obtain ⟨htgts, hkeys⟩ := hok m hm
        constructor
        · intro l' hl'
          rcases List.mem_cons.mp hl' with rfl | hl'
          · obtain ⟨q', hq', hqreg, _⟩ := htgt
            obtain ⟨p', hp', _, _, _, hfr⟩ := hstepMid.meta_eq _ _ hq'
            refine ⟨p', hp', ?_⟩
            rw [hfr hqreg]
            exact hqreg
          · exact htgts l' hl'
        · intro k hk
          rcases hkeys k hk with hacc | hrest
          · rcases alookup_jsAssign_isSome _ _ _ _ hacc with hkn | hacc'
            · exact Or.inr ⟨l, List.mem_cons_self _ _, hkn.symm⟩
            · exact Or.inl hacc'
          · obtain ⟨l', hl', hn⟩ := hrest
            exact Or.inr ⟨l', List.mem_cons_of_mem _ hl', hn⟩
      next htl hol =>
        injection h with h1 h2
        subst h1
        subst h2
        refine ⟨hstep1, ?_⟩
        intro m hm
        exact absurd hm (by simp)

theorem alookup_updateProv_other (st : OpState) (k k' : String)
    (f : Provisionable → Provisionable) (h : k' ≠ k) :
    alookup k' (updateProv st k f).provisionables = alookup k' st.provisionables := by
  unfold updateProv
  cases hq : alookup k st.provisionables with
  | none => rfl
  | some q =>
    simp only
    rw [alookup_msetKey, if_neg (fun hk => h hk.symm)]

theorem register_step :
    ∀ (fuel : Nat) (st : OpState) (pid : String) (st' : OpState) (r : Except Err Output),
      register fuel st pid = (st', r) →
      StepOK st st' ∧
      ∀ o, r = .ok o → ∃ q, alookup pid st'.provisionables = some q ∧
        q.registered = true ∧ q.provisions = o := by
  intro fuel
  induction fuel with
  | zero =>
    intro st pid st' r h
    simp only [register] at h
    injection h with h1 h2
    subst h1
    subst h2
    exact ⟨StepOK.refl st, fun o ho => absurd ho (by simp)⟩
  | succ n ih =>
    intro st pid st' r h
    simp only [register] at h
    split at h
    next =>
      injection h with h1 h2
      subst h1
      subst h2
      exact ⟨StepOK.refl st, fun o ho => absurd ho (by simp)⟩
    next p hp =>
      split at h
      next hregd =>
        injection h with h1 h2
        subst h1
        subst h2
        refine ⟨StepOK.refl st, fun o ho => ?_⟩
        injection ho with ho
        subst ho
        exact ⟨p, hp, hregd, rfl⟩
      next hnreg =>
        have hpf : p.registered = false := by
          revert hnreg
          cases p.registered <;> simp
        have hunreg : ∀ p0, alookup pid st.provisionables = some p0 →
            p0.registered = false := by
          intro p0 h0
          rw [hp] at h0
          injection h0 with h0
          subst h0
          exact hpf
        split at h
        next errs hv =>
          injection h with h1 h2
          subst h1
          subst h2
          exact ⟨StepOK.refl st, fun o ho => absurd ho (by simp)⟩
        next c hv =>
          split at h
          next st1 e hra =>
            injection h with h1 h2
            subst h1
            subst h2
            exact ⟨(registerAssociated_step _ ih pid true _ _ _ _ _ hra).1,
              fun o ho => absurd ho (by simp)⟩
          next st1 reqOut hra =>
            have hstep1 : StepOK st st1 :=
              (registerAssociated_step _ ih pid true _ _ _ _ _ hra).1
            have hstep2 : StepOK st
                (updateProv st1 pid fun q => { q with requirements := reqOut }) :=
              hstep1.updateUnregistered pid _ (fun _ => ⟨rfl, rfl, rfl⟩) hunreg
            split at h
            next hp2 =>
              injection h with h1 h2
              subst h1
              subst h2
              exact ⟨hstep2, fun o ho => absurd ho (by simp)⟩
            next p2 hp2 =>
              split at h
              next e hassert =>
                injection h with h1 h2
                subst h1
                subst h2
                exact ⟨hstep2, fun o ho => absurd ho (by simp)⟩
              next hassert =>
                split at h
                next st4 e hse =>
                  injection h with h1 h2
                  subst h1
                  subst h2
                  refine ⟨?_, fun o ho => absurd ho (by simp)⟩
                  have hphase := (registerAssociated_step _ ih pid false _ _ _ _ _ hse).1
                  refine StepOK.trans ?_ hphase
                  exact (hstep2.trans (StepOK.addEvents _ _)).updateUnregistered
                    pid _ (fun _ => ⟨rfl, rfl, rfl⟩) hunreg
                next st4 seOut hse =>
                  have hphase := (registerAssociated_step _ ih pid false _ _ _ _ _ hse).1
                  have hstep4 : StepOK st st4 := by
                    refine StepOK.trans ?_ hphase
                    exact (hstep2.trans (StepOK.addEvents _ _)).updateUnregistered
                      pid _ (fun _ => ⟨rfl, rfl, rfl⟩) hunreg
                  have hstep5 : StepOK st
                      (updateProv st4 pid fun q => { q with sideEffects := seOut }) :=
                    hstep4.updateUnregistered pid _ (fun _ => ⟨rfl, rfl, rfl⟩) hunreg
                  split at h
                  next q hq5 =>
                    injection h with h1 h2
                    subst h1
                    subst h2
                    refine ⟨hstep5, fun o ho => ?_⟩
                    injection ho with ho
                    subst ho
                    -- the node is registered with the just-set provisions at st3,
                    -- preserved through the side-effect phase and the final update
                    obtain ⟨p4, hp4, _, _, _, hfr⟩ :=
                      hphase.meta_eq pid _ (alookup_updateProv_self_some hp2)
                    have hp4reg := hfr rfl
                    subst hp4reg
                    rw [alookup_updateProv_self_some hp4] at hq5
                    injection hq5 with hq5
                    subst hq5
                    exact ⟨_, alookup_updateProv_self_some hp4, rfl, rfl⟩
                  next hq5 =>
                    injection h with h1 h2
                    subst h1
                    subst h2
                    exact ⟨hstep5, fun o ho => absurd ho (by simp)⟩

theorem alookup_none_iff {α : Type} (l : List (String × α)) (k : String) :
    alookup k l = none ↔ k ∉ l.map Prod.fst := by
  induction l with
  | nil => simp [alookup]
  | cons kv rest ih =>
    obtain ⟨k0, v0⟩ := kv
    simp only [alookup, List.map_cons, List.mem_cons]
    by_cases h : k0 = k
    · subst h
      simp
    · simp only [if_neg h, ih]
      constructor
      · intro h1 h2
        rcases h2 with h2 | h2
        · exact h h2.symm
        · exact h1 h2
      · intro h1 h2
        exact h1 (Or.inr h2)

theorem alookup_of_mem_nodup {α : Type} {l : List (String × α)} {k : String} {v : α}
    (hnd : (l.map Prod.fst).Nodup) (hm : (k, v) ∈ l) : alookup k l = some v := by
  induction l with
  | nil => cases hm
  | cons kv rest ih =>
    obtain ⟨k0, v0⟩ := kv
    simp only [List.map_cons, List.nodup_cons] at hnd
    rcases List.mem_cons.mp hm with heq | hm'
    · injection heq with h1 h2
      subst h1
      subst h2
      simp [alookup]
    · have hk : k0 ≠ k := by
        intro h0
        subst h0
        exact hnd.1 (List.mem_map_of_mem Prod.fst hm')
      simp only [alookup, if_neg hk]
      exact ih hnd.2 hm'

/-! ## Schema-merge lemmas -/

theorem alookup_assignFields (b : List (String × Prim)) (a : List (String × Prim))
    (k : String) (hnd : (b.map Prod.fst).Nodup) :
    alookup k (assignFields a b) =
      match alookup k b with
      | some v => some v
      | none => alookup k a := by
  induction b generalizing a with
  | nil => simp [assignFields, alookup]
  | cons kv rest ih =>
    obtain ⟨k0, v0⟩ := kv
    simp only [List.map_cons, List.nodup_cons] at hnd
    show alookup k (assignFields (msetKey a k0 v0) rest) = _
    rw [ih _ hnd.2]
    by_cases hk : k0 = k
    · subst hk
      have hrest : alookup k0 rest = none :=
        (alookup_none_iff rest k0).mpr hnd.1
      rw [alookup_msetKey, if_pos rfl]
      simp [hrest, alookup]
    · rw [alookup_msetKey, if_neg hk]
      simp [alookup, hk]

theorem alookup_mergeProps (b : List (String × JVal)) (a : List (String × JVal))
    (k : String) (hnd : (b.map Prod.fst).Nodup) :
    alookup k (mergeProps a b) =
      match alookup k b with
      | some vb =>
        match alookup k a with
        | some va => some (mergeVal va vb)
        | none => some vb
      | none => alookup k a := by
  induction b generalizing a with
  | nil => simp [mergeProps, alookup]
  | cons kv rest ih =>
    obtain ⟨k0, v0⟩ := kv
    simp only [List.map_cons, List.nodup_cons] at hnd
    have hstep : alookup k
        (match alookup k0 a with
         | some old => msetKey a k0 (mergeVal old v0)
         | none => a ++ [(k0, v0)]) =
        if k0 = k then
          (match alookup k a with
           | some va => some (mergeVal va v0)
           | none => some v0)
        else alookup k a := by
      by_cases hk : k0 = k
      · subst hk
        cases ha : alookup k0 a with
        | some old => simp [alookup_msetKey, ha]
        | none => simp [alookup_append, ha, alookup]
      · cases ha : alookup k0 a with
        | some old => simp [alookup_msetKey, hk]
        | none =>
          simp only [if_neg hk]
          rw [alookup_append]
          cases hka : alookup k a with
          | some v => simp
          | none => simp [alookup, hk]
    show alookup k (mergeProps
      (match alookup k0 a with
       | some old => msetKey a k0 (mergeVal old v0)
       | none => a ++ [(k0, v0)]) rest) = _
    rw [ih _ hnd.2]
    by_cases hk : k0 = k
    · subst hk
      have hrest : alookup k0 rest = none :=
        (alookup_none_iff rest k0).mpr hnd.1
      rw [hstep, if_pos rfl]
      simp [hrest, alookup]
    · rw [hstep, if_neg hk]
      simp [alookup, hk]

theorem mem_uniqAux {α : Type} [DecidableEq α] (l : List α) (seen : List α) (a : α) :
    a ∈ uniqAux seen l ↔ a ∈ l ∧ a ∉ seen := by
  induction l generalizing seen with
  | nil => simp [uniqAux]
  | cons x rest ih =>
    simp only [uniqAux]
    by_cases hx : x ∈ seen
    · rw [if_pos hx, ih]
      constructor
      · rintro ⟨h1, h2⟩
        exact ⟨List.mem_cons_of_mem _ h1, h2⟩
      · rintro ⟨h1, h2⟩
        rcases List.mem_cons.mp h1 with rfl | h1
        · exact absurd hx h2
        · exact ⟨h1, h2⟩
    · rw [if_neg hx]
      constructor
      · intro hmem
        rcases List.mem_cons.mp hmem with rfl | hmem
        · exact ⟨List.mem_cons_self _ _, hx⟩
        · obtain ⟨h1, h2⟩ := (ih (x :: seen)).mp hmem
          exact ⟨List.mem_cons_of_mem _ h1,
            fun hs => h2 (List.mem_cons_of_mem _ hs)⟩
      · rintro ⟨h1, h2⟩
        rcases List.mem_cons.mp h1 with rfl | h1
        · exact List.mem_cons_self _ _
        · by_cases hax : a = x
          · subst hax
            exact List.mem_cons_self _ _
          · refine List.mem_cons_of_mem _ ((ih (x :: seen)).mpr ⟨h1, ?_⟩)
            intro hs
            rcases List.mem_cons.mp hs with h | h
            · exact hax h
            · exact h2 h

theorem nodup_uniqAux {α : Type} [DecidableEq α] (l : List α) (seen : List α) :
    (uniqAux seen l).Nodup := by
  induction l generalizing seen with
  | nil => exact List.nodup_nil
  | cons x rest ih =>
    simp only [uniqAux]
    by_cases hx : x ∈ seen
    · rw [if_pos hx]
      exact ih seen
    · rw [if_neg hx]
      refine List.nodup_cons.mpr ⟨?_, ih _⟩
      intro hmem
      exact ((mem_uniqAux rest (x :: seen) x).mp hmem).2 (List.mem_cons_self _ _)

theorem mem_uniqFirst {α : Type} [DecidableEq α] (l : List α) (a : α) :
    a ∈ uniqFirst l ↔ a ∈ l := by
  unfold uniqFirst
  rw [mem_uniqAux]
  simp

theorem nodup_uniqFirst {α : Type} [DecidableEq α] (l : List α) :
    (uniqFirst l).Nodup :=
  nodup_uniqAux l []

/-! ## Environment aggregation lemmas -/

theorem mem_uniqByNameAux (l : List EnvVar) :
    ∀ (seen : List String) (v : EnvVar),
      v ∈ uniqByNameAux seen l ↔
        v.name ∉ seen ∧ l.find? (fun w => w.name == v.name) = some v := by
  induction l with
  | nil => intro seen v; simp [uniqByNameAux]
  | cons x rest ih =>
    intro seen v
    simp only [uniqByNameAux]
    by_cases heq : x.name = v.name
    · have hpred : (x.name == v.name) = true := by simp [heq]
      rw [show (x :: rest).find? (fun w => w.name == v.name) = some x by
        simp [List.find?, hpred]]
      by_cases hx : x.name ∈ seen
      · rw [if_pos hx, ih]
        constructor
        · rintro ⟨h1, _⟩
          exact absurd (heq ▸ hx) h1
        · rintro ⟨h1, h2⟩
          injection h2 with h2
          subst h2
          exact absurd hx h1
      · rw [if_neg hx]
        constructor
        · intro hmem
          rcases List.mem_cons.mp hmem with rfl | hmem
          · exact ⟨hx, rfl⟩
          · obtain ⟨h1, _⟩ := (ih _ v).mp hmem
            exact absurd (heq ▸ List.mem_cons_self x.name seen) h1
        · rintro ⟨h1, h2⟩
          injection h2 with h2
          subst h2
          exact List.mem_cons_self _ _
    · have hpred : (x.name == v.name) = false := by simp [heq]
      rw [show (x :: rest).find? (fun w => w.name == v.name) =
          rest.find? (fun w => w.name == v.name) by
        simp [List.find?, hpred]]
      by_cases hx : x.name ∈ seen
      · rw [if_pos hx, ih]
      · rw [if_neg hx]
        constructor
        · intro hmem
          rcases List.mem_cons.mp hmem with rfl | hmem
          · exact absurd rfl heq
          · obtain ⟨h1, h2⟩ := (ih _ v).mp hmem
            exact ⟨fun hs => h1 (List.mem_cons_of_mem _ hs), h2⟩
        · rintro ⟨h1, h2⟩
          refine List.mem_cons_of_mem _ ((ih _ v).mpr ⟨?_, h2⟩)
          intro hs
          rcases List.mem_cons.mp hs with hs | hs
          · exact heq hs.symm
          · exact h1 hs

theorem uniqByNameAux_names (l : List EnvVar) :
    ∀ seen : List String,
      ((uniqByNameAux seen l).map EnvVar.name).Nodup ∧
      ∀ v ∈ uniqByNameAux seen l, v.name ∉ seen := by
  induction l with
  | nil => intro seen; simp [uniqByNameAux]
  | cons x rest ih =>
    intro seen
    simp only [uniqByNameAux]
    by_cases hx : x.name ∈ seen
    · rw [if_pos hx]
      exact ih seen
    · rw [if_neg hx]
      obtain ⟨hnd, hseen⟩ := ih (x.name :: seen)
      refine ⟨?_, ?_⟩
      · simp only [List.map_cons, List.nodup_cons]
        refine ⟨?_, hnd⟩
        intro hmem
        obtain ⟨v, hv, hvn⟩ := List.mem_map.mp hmem
        exact hseen v hv (by rw [hvn]; exact List.mem_cons_self _ _)
      · intro v hv
        rcases List.mem_cons.mp hv with rfl | hv
        · exact hx
        · exact fun hs => hseen v hv (List.mem_cons_of_mem _ hs)

/-! ## Sequential decomposition of association resolution -/

theorem alookup_jsAssign_other {α : Type} (m : List (String × α)) (k k' : String)
    (v : α) (h : k' ≠ k) : alookup k (jsAssign m k' v) = alookup k m := by
  unfold jsAssign
  rw [alookup_msetKey, if_neg h]

theorem alookup_jsAssign_self {α : Type} (m : List (String × α)) (k : String) (v : α) :
    alookup k (jsAssign m k v) = some v := by
  unfold jsAssign
  rw [alookup_msetKey, if_pos rfl]

theorem registerAssociated_append
    (reg : OpState → String → OpState × Except Err Output)
    (ownerId : String) (isReq : Bool) (xs ys : List Link) :
    ∀ (st : OpState) (acc : List (String × Output)),
      registerAssociated reg ownerId isReq st (xs ++ ys) acc =
        match registerAssociated reg ownerId isReq st xs acc with
        | (st1, .ok acc1) => registerAssociated reg ownerId isReq st1 ys acc1
        | (st1, .error e) => (st1, .error e) := by
  induction xs with
  | nil =>
    intro st acc
    simp [registerAssociated]
  | cons l rest ih =>
    intro st acc
    simp only [List.cons_append, registerAssociated]
    cases reg st l.target with
    | mk st1 r1 =>
      cases r1 with
      | error e => simp only []
      | ok lp =>
        simp only []
        cases alookup l.target st1.provisionables with
        | none => cases alookup ownerId st1.provisionables <;> simp only []
        | some target =>
          cases alookup ownerId st1.provisionables with
          | none => simp only []
          | some owner =>
            simp only []
            exact ih _ _

theorem registerAssociated_skip_name
    (reg : OpState → String → OpState × Except Err Output)
    (ownerId : String) (isReq : Bool) (name : String) :
    ∀ (ys : List Link), (∀ l ∈ ys, l.name ≠ name) →
      ∀ (st : OpState) (acc : List (String × Output)) (st' : OpState)
        (m : List (String × Output)),
        registerAssociated reg ownerId isReq st ys acc = (st', .ok m) →
        alookup name m = alookup name acc := by
  intro ys
  induction ys with
  | nil =>
    intro _ st acc st' m h
    simp only [registerAssociated] at h
    injection h with h1 h2
    injection h2 with h2
    rw [h2]
  | cons l rest ih =>
    intro hys st acc st' m h
    simp only [registerAssociated] at h
    split at h
    next st1 e heq =>
      injection h with h1 h2
      exact Except.noConfusion h2
    next st1 lp heq =>
      split at h
      next target owner htl hol =>
        rw [ih (fun l' hl' => hys l' (List.mem_cons_of_mem _ hl')) _ _ _ _ h]
        exact alookup_jsAssign_other _ _ _ _ (hys l (List.mem_cons_self _ _))
      next htl hol =>
        injection h with h1 h2
        exact Except.noConfusion h2

/-! ## Structure of the operation constructor -/

theorem alookup_map_snd {α β : Type} (l : List (String × α)) (g : α → β) (k : String) :
    alookup k (l.map fun kv => (kv.1, g kv.2)) = (alookup k l).map g := by
  induction l with
  | nil => simp [alookup]
  | cons kv rest ih =>
    obtain ⟨k0, v0⟩ := kv
    simp only [List.map_cons, alookup]
    by_cases h : k0 = k
    · simp [h]
    · simp [h, ih]

theorem msetKey_mem {α : Type} (m : List (String × α)) (k : String) (v : α) :
    ∀ kv ∈ msetKey m k v, kv ∈ m ∨ kv = (k, v) := by
  induction m with
  | nil =>
    intro kv h
    simp only [msetKey] at h
    exact Or.inr (List.mem_singleton.mp h)
  | cons kv0 rest ih =>
    intro kv h
    obtain ⟨k0, v0⟩ := kv0
    simp only [msetKey] at h
    by_cases h0 : k0 = k
    · rw [if_pos h0] at h
      rcases List.mem_cons.mp h with rfl | h
      · exact Or.inr (by rw [h0])
      · exact Or.inl (List.mem_cons_of_mem _ h)
    · rw [if_neg h0] at h
      rcases List.mem_cons.mp h with rfl | h
      · exact Or.inl (List.mem_cons_self _ _)
      · rcases ih kv h with h' | h'
        · exact Or.inl (List.mem_cons_of_mem _ h')
        · exact Or.inr h'

theorem msetKey_keys_nodup {α : Type} (m : List (String × α)) (k : String) (v : α)
    (hnd : (m.map Prod.fst).Nodup) : ((msetKey m k v).map Prod.fst).Nodup := by
  induction m with
  | nil => simp [msetKey]
  | cons kv0 rest ih =>
    obtain ⟨k0, v0⟩ := kv0
    simp only [List.map_cons, List.nodup_cons] at hnd
    simp only [msetKey]
    by_cases h0 : k0 = k
    · rw [if_pos h0]
      simp only [List.map_cons, List.nodup_cons]
      exact ⟨hnd.1, hnd.2⟩
    · rw [if_neg h0]
      simp only [List.map_cons, List.nodup_cons]
      refine ⟨?_, ih hnd.2⟩
      intro hmem
      obtain ⟨kv, hkv, hfst⟩ := List.mem_map.mp hmem
      rcases msetKey_mem rest k v kv hkv with h' | h'
      · exact hnd.1 (hfst ▸ List.mem_map_of_mem Prod.fst h')
      · subst h'
        exact h0 hfst.symm

theorem buildProvAux_facts (registry : List ServiceDef) :
    ∀ (cfgs : List Config) (acc provs : List (String × Provisionable)),
      buildProvAux registry acc cfgs = some provs →
      ((acc.map Prod.fst).Nodup → (provs.map Prod.fst).Nodup) ∧
      ((∀ kv ∈ acc, kv.2.id = kv.1) → ∀ kv ∈ provs, kv.2.id = kv.1) := by
  intro cfgs
  induction cfgs with
  | nil =>
    intro acc provs h
    simp only [buildProvAux] at h
    injection h with h
    subst h
    exact ⟨id, id⟩
  | cons cfg rest ih =>
    intro acc provs h
    simp only [buildProvAux] at h
    split at h
    next => cases h
    next p hp =>
      obtain ⟨hnd, hid⟩ := ih _ _ h
      refine ⟨fun hacc => hnd (msetKey_keys_nodup _ _ _ hacc), fun hacc => hid ?_⟩
      intro kv hkv
      rcases msetKey_mem _ _ _ kv hkv with h' | h'
      · exact hacc kv h'
      · subst h'
        rfl

theorem setupOperation_facts (registry : List ServiceDef) (scope : Scope)
    (services : List Config) (st : OpState)
    (h : setupOperation registry scope services = some st) :
    st.scope = scope ∧ st.events = [] ∧
    (st.provisionables.map Prod.fst).Nodup ∧
    (∀ kv ∈ st.provisionables, kv.2.id = kv.1) ∧
    (∀ idN N, alookup idN st.provisionables = some N →
      alookup idN st.reqLinks = some (linksForEntries N.config
        (st.provisionables.map (·.2)) (scopeAssociations N.service scope)).1 ∧
      alookup idN st.seLinks = some (linksForEntries N.config
        (st.provisionables.map (·.2)) (scopeAssociations N.service scope)).2) := by
  unfold setupOperation at h
  split at h
  next => cases h
  next provs hbuild =>
    injection h with h
    subst h
    obtain ⟨hnd, hid⟩ := buildProvAux_facts registry services [] provs hbuild
    refine ⟨rfl, rfl, hnd (by simp), hid (by simp), ?_⟩
    intro idN N hN
    constructor
    · rw [show alookup idN (provs.map fun kp => (kp.1, (linksForEntries kp.2.config
          (provs.map (·.2)) (scopeAssociations kp.2.service scope)).1)) =
        (alookup idN provs).map (fun p => (linksForEntries p.config
          (provs.map (·.2)) (scopeAssociations p.service scope)).1) from
        alookup_map_snd provs (fun p => (linksForEntries p.config
          (provs.map (·.2)) (scopeAssociations p.service scope)).1) idN]
      rw [hN]
      rfl
    · rw [show alookup idN (provs.map fun kp => (kp.1, (linksForEntries kp.2.config
          (provs.map (·.2)) (scopeAssociations kp.2.service scope)).2)) =
        (alookup idN provs).map (fun p => (linksForEntries p.config
          (provs.map (·.2)) (scopeAssociations p.service scope)).2) from
        alookup_map_snd provs (fun p => (linksForEntries p.config
          (provs.map (·.2)) (scopeAssociations p.service scope)).2) idN]
      rw [hN]
      rfl

theorem mem_linksForAssoc (ownerConfig : Config) (name : String) (a : Assoc)
    (nodes : List Provisionable) (l : Link) :
    l ∈ linksForAssoc ownerConfig name a nodes ↔
      ∃ M ∈ nodes,
        l = { name := name, target := M.id, handler := a.handler,
              requirement := a.requirement } ∧
        (match a.withType with
         | some t => decide (t ≠ "") && decide (M.service.type ≠ t)
         | none => false) = false ∧
        (match a.whereFn with
         | some f => !f ownerConfig M.config
         | none => false) = false := by
  induction nodes with
  | nil => simp [linksForAssoc]
  | cons M rest ih =>
    simp only [linksForAssoc]
    by_cases h1 : (match a.withType with
        | some t => decide (t ≠ "") && decide (M.service.type ≠ t)
        | none => false) = true
    · rw [if_pos h1, ih]
      constructor
      · rintro ⟨M', hM', hl⟩
        exact ⟨M', List.mem_cons_of_mem _ hM', hl⟩
      · rintro ⟨M', hM', hl, h2, h3⟩
        rcases List.mem_cons.mp hM' with rfl | hM'
        · rw [h1] at h2
          cases h2
        · exact ⟨M', hM', hl, h2, h3⟩
    · rw [if_neg h1]
      have h1f : (match a.withType with
          | some t => decide (t ≠ "") && decide (M.service.type ≠ t)
          | none => false) = false := by
        revert h1
        cases (match a.withType with
          | some t => decide (t ≠ "") && decide (M.service.type ≠ t)
          | none => false) <;> simp
      by_cases h2 : (match a.whereFn with
          | some f => !f ownerConfig M.config
          | none => false) = true
      · rw [if_pos h2, ih]
        constructor
        · rintro ⟨M', hM', hl⟩
          exact ⟨M', List.mem_cons_of_mem _ hM', hl⟩
        · rintro ⟨M', hM', hl, h2', h3'⟩
          rcases List.mem_cons.mp hM' with rfl | hM'
          · rw [h2] at h3'
            cases h3'
          · exact ⟨M', hM', hl, h2', h3'⟩
      · rw [if_neg h2]
        have h2f : (match a.whereFn with
            | some f => !f ownerConfig M.config
            | none => false) = false := by
          revert h2
          cases (match a.whereFn with
            | some f => !f ownerConfig M.config
            | none => false) <;> simp
        constructor
        · intro hmem
          rcases List.mem_cons.mp hmem with rfl | hmem
          · exact ⟨M, List.mem_cons_self _ _, rfl, h1f, h2f⟩
          · obtain ⟨M', hM', hl⟩ := ih.mp hmem
            exact ⟨M', List.mem_cons_of_mem _ hM', hl⟩
        · rintro ⟨M', hM', hl, h2', h3'⟩
          rcases List.mem_cons.mp hM' with rfl | hM'
          · rw [hl]
            exact List.mem_cons_self _ _
          · exact List.mem_cons_of_mem _ (ih.mpr ⟨M', hM', hl, h2', h3'⟩)

theorem mem_linksForEntries (ownerConfig : Config) (nodes : List Provisionable)
    (entries : List (String × Assoc)) (l : Link) :
    (l ∈ (linksForEntries ownerConfig nodes entries).1 ↔
      ∃ nm a, (nm, a) ∈ entries ∧ a.requirement = true ∧
        l ∈ linksForAssoc ownerConfig nm a nodes) ∧
    (l ∈ (linksForEntries ownerConfig nodes entries).2 ↔
      ∃ nm a, (nm, a) ∈ entries ∧ a.requirement = false ∧
        l ∈ linksForAssoc ownerConfig nm a nodes) := by
  induction entries with
  | nil => simp [linksForEntries]
  | cons kv rest ih =>
    obtain ⟨nm0, a0⟩ := kv
    simp only [linksForEntries]
    by_cases hreq : a0.requirement = true
    · rw [if_pos hreq]
      constructor
      · simp only [List.mem_append, ih.1]
        constructor
        · rintro (hmem | ⟨nm, a, hmem, hr, hl⟩)
          · exact ⟨nm0, a0, List.mem_cons_self _ _, hreq, hmem⟩
          · exact ⟨nm, a, List.mem_cons_of_mem _ hmem, hr, hl⟩
        · rintro ⟨nm, a, hmem, hr, hl⟩
          rcases List.mem_cons.mp hmem with heq | hmem
          · injection heq with e1 e2
            subst e1
            subst e2
            exact Or.inl hl
          · exact Or.inr ⟨nm, a, hmem, hr, hl⟩
      · rw [ih.2]
        constructor
        · rintro ⟨nm, a, hmem, hr, hl⟩
          exact ⟨nm, a, List.mem_cons_of_mem _ hmem, hr, hl⟩
        · rintro ⟨nm, a, hmem, hr, hl⟩
          rcases List.mem_cons.mp hmem with heq | hmem
          · injection heq with e1 e2
            subst e1
            subst e2
            rw [hreq] at hr
            cases hr
          · exact ⟨nm, a, hmem, hr, hl⟩
    · have hreqf : a0.requirement = false := by
        revert hreq
        cases a0.requirement <;> simp
      rw [if_neg hreq]
      constructor
      · rw [ih.1]
        constructor
        · rintro ⟨nm, a, hmem, hr, hl⟩
          exact ⟨nm, a, List.mem_cons_of_mem _ hmem, hr, hl⟩
        · rintro ⟨nm, a, hmem, hr, hl⟩
          rcases List.mem_cons.mp hmem with heq | hmem
          · injection heq with e1 e2
            subst e1
            subst e2
            rw [hreqf] at hr
            cases hr
          · exact ⟨nm, a, hmem, hr, hl⟩
      · simp only [List.mem_append, ih.2]
        constructor
        · rintro (hmem | ⟨nm, a, hmem, hr, hl⟩)
          · exact ⟨nm0, a0, List.mem_cons_self _ _, hreqf, hmem⟩
          · exact ⟨nm, a, List.mem_cons_of_mem _ hmem, hr, hl⟩
        · rintro ⟨nm, a, hmem, hr, hl⟩
          rcases List.mem_cons.mp hmem with heq | hmem
          · injection heq with e1 e2
            subst e1
            subst e2
            exact Or.inl hl
          · exact Or.inr ⟨nm, a, hmem, hr, hl⟩

/-! ## The requirement-gate invariant -/

theorem GateInv.pushEvents {st : OpState} {pid name : String}
    (hg : GateInv st pid name) (tail : List Event)
    (htail : ∀ e ∈ tail, ownScopeEvent pid e = false ∧ ownSideEffectEvent pid e = false) :
    GateInv { st with events := st.events ++ tail } pid name := by
  obtain ⟨h1, h2, h3⟩ := hg
  refine ⟨h1, h2, ?_⟩
  intro e he
  rcases List.mem_append.mp he with he | he
  · exact h3 e he
  · exact htail e he

theorem GateInv.updateOther {st : OpState} {pid name : String}
    (hg : GateInv st pid name) (k : String) (f : Provisionable → Provisionable)
    (hk : k ≠ pid) : GateInv (updateProv st k f) pid name := by
  obtain ⟨⟨p, hp, hreg, ha⟩, h2, h3⟩ := hg
  refine ⟨⟨p, ?_, hreg, ?_⟩, ?_, ?_⟩
  · rw [alookup_updateProv_other st k pid f (fun h => hk h.symm)]
    exact hp
  · rw [(updateProv_links st k f).2.2]
    exact ha
  · rw [(updateProv_links st k f).1]
    exact h2
  · rw [updateProv_events]
    exact h3

theorem GateInv.updateSelfKeep {st : OpState} {pid name : String}
    (hg : GateInv st pid name) (f : Provisionable → Provisionable)
    (hf : ∀ q, (f q).registered = q.registered ∧ (f q).service = q.service) :
    GateInv (updateProv st pid f) pid name := by
  obtain ⟨⟨p, hp, hreg, a, ha, har⟩, h2, h3⟩ := hg
  refine ⟨⟨f p, alookup_updateProv_self_some hp, by rw [(hf p).1]; exact hreg,
    a, ?_, har⟩, ?_, ?_⟩
  · rw [(hf p).2, (updateProv_links st pid f).2.2]
    exact ha
  · rw [(updateProv_links st pid f).1]
    exact h2
  · rw [updateProv_events]
    exact h3

theorem assertRequirementsSatisfied_none (p : Provisionable) (scope : Scope)
    (h : assertRequirementsSatisfied p scope = none)
    (name : String) (a : Assoc)
    (ha : alookup name (scopeAssociations p.service scope) = some a)
    (har : a.requirement = true) :
    (alookup name p.requirements).isSome = true := by
  unfold assertRequirementsSatisfied at h
  unfold scopeAssociations at ha
  cases hsa : alookup scope p.service.associations with
  | none =>
    rw [hsa] at ha
    simp [alookup] at ha
  | some assocs =>
    rw [hsa] at ha
    simp only [Option.getD_some] at ha
    simp only [hsa] at h
    cases hfind : assocs.find? (fun kv =>
        kv.2.requirement && (alookup kv.1 p.requirements).isNone) with
    | some kv =>
      simp only [hfind] at h
      exact absurd h (by simp)
    | none =>
      have hmem := List.find?_eq_none.mp hfind (name, a) (alookup_mem ha)
      cases halo : alookup name p.requirements with
      | none =>
        exfalso
        apply hmem
        simp [har, halo]
      | some v => rfl

theorem registerAssociated_gate (pid name : String)
    (reg : OpState → String → OpState × Except Err Output)
    (hgate : ∀ st q st' r, reg st q = (st', r) →
      GateInv st pid name → GateInv st' pid name) :
    ∀ (links : List Link) (st : OpState) (ownerId : String) (isReq : Bool)
      (acc : List (String × Output)) (st' : OpState)
      (r : Except Err (List (String × Output))),
      registerAssociated reg ownerId isReq st links acc = (st', r) →
      (isReq = true ∨ ownerId ≠ pid) →
      GateInv st pid name → GateInv st' pid name := by
  intro links
  induction links with
  | nil =>
    intro st ownerId isReq acc st' r h _ hg
    simp only [registerAssociated] at h
    injection h with h1 h2
    subst h1
    exact hg
  | cons l rest ih =>
    intro st ownerId isReq acc st' r h hside hg
    simp only [registerAssociated] at h
    split at h
    next st1 e heq =>
      injection h with h1 h2
      subst h1
      exact hgate _ _ _ _ heq hg
    next st1 lp heq =>
      have hg1 : GateInv st1 pid name := hgate _ _ _ _ heq hg
      split at h
      next target owner htl hol =>
        refine ih _ _ _ _ _ _ h hside (hg1.pushEvents _ ?_)
        intro e he
        rcases List.mem_singleton.mp he with rfl
        constructor
        · rfl
        · show (!isReq && (ownerId == pid)) = false
          rcases hside with hsq | hsq
          · subst hsq
            rfl
          · simp [hsq]
      next htl hol =>
        injection h with h1 h2
        subst h1
        exact hg1

theorem register_gate (pid name : String) :
    ∀ (fuel : Nat) (st : OpState) (q : String) (st' : OpState) (r : Except Err Output),
      register fuel st q = (st', r) →
      GateInv st pid name →
      GateInv st' pid name ∧ (q = pid → ∃ e, r = .error e) := by
  intro fuel
  induction fuel with
  | zero =>
    intro st q st' r h hg
    simp only [register] at h
    injection h with h1 h2
    subst h1
    subst h2
    exact ⟨hg, fun _ => ⟨.fuel, rfl⟩⟩
  | succ n ih =>
    have ihgate : ∀ st q st' r, register n st q = (st', r) →
        GateInv st pid name → GateInv st' pid name :=
      fun st q st' r h hg => (ih st q st' r h hg).1
    intro st q st' r h hg
    simp only [register] at h
    split at h
    next =>
      injection h with h1 h2
      subst h1
      subst h2
      exact ⟨hg, fun _ => ⟨_, rfl⟩⟩
    next p hp =>
      split at h
      next hregd =>
        injection h with h1 h2
        subst h1
        subst h2
        refine ⟨hg, fun hq => ?_⟩
        subst hq
        obtain ⟨⟨p0, hp0, hreg0, _⟩, _, _⟩ := hg
        rw [hp] at hp0
        injection hp0 with hp0
        subst hp0
        rw [hregd] at hreg0
        cases hreg0
      next hnreg =>
        split at h
        next errs hv =>
          injection h with h1 h2
          subst h1
          subst h2
          exact ⟨hg, fun _ => ⟨_, rfl⟩⟩
        next c hv =>
          split at h
          next st1 e hra =>
            injection h with h1 h2
            subst h1
            subst h2
            exact ⟨registerAssociated_gate pid name _ ihgate _ _ _ _ _ _ _ hra
              (Or.inl rfl) hg, fun _ => ⟨_, rfl⟩⟩
          next st1 reqOut hra =>
            have hstep1 : StepOK st st1 :=
              (registerAssociated_step _ (register_step n) q true _ _ _ _ _ hra).1
            have hg1 : GateInv st1 pid name :=
              registerAssociated_gate pid name _ ihgate _ _ _ _ _ _ _ hra
                (Or.inl rfl) hg
            -- when the frame is the gate node itself, the collected
            -- requirements cannot contain the unmatchable association name
            have hmiss : q = pid → (alookup name reqOut).isSome = false := by
              intro hq
              subst hq
              rcases hs : (alookup name reqOut).isSome with _ | _
              · rfl
              · exfalso
                rcases ((registerAssociated_step _ (register_step n) q true
                    _ _ _ _ _ hra).2 reqOut rfl).2 name hs with hacc | ⟨l, hl, hn⟩
                · simp [alookup] at hacc
                · exact hg.2.1 l hl hn
            have hg2 : GateInv (updateProv st1 q fun q0 =>
                { q0 with requirements := reqOut }) pid name := by
              by_cases hq : q = pid
              · subst hq
                exact hg1.updateSelfKeep _ (fun _ => ⟨rfl, rfl⟩)
              · exact hg1.updateOther _ _ hq
            split at h
            next hp2 =>
              injection h with h1 h2
              subst h1
              subst h2
              exact ⟨hg2, fun _ => ⟨_, rfl⟩⟩
            next p2 hp2 =>
              split at h
              next e hassert =>
                injection h with h1 h2
                subst h1
                subst h2
                exact ⟨hg2, fun _ => ⟨_, rfl⟩⟩
              next hassert =>
                -- the assert cannot pass for the gate node: its requirement
                -- association has no output, so the frame is another node
                have hqne : q ≠ pid := by
                  intro hq
                  subst hq
                  obtain ⟨⟨p0, hp0, hreg0, a, ha, har⟩, hlinks, hevs⟩ := hg
                  obtain ⟨p1, hp1, _, _, hsvc1, _⟩ := hstep1.meta_eq _ _ hp0
                  have hp2' : alookup q (updateProv st1 q fun q0 =>
                      { q0 with requirements := reqOut }).provisionables =
                      some { p1 with requirements := reqOut } :=
                    alookup_updateProv_self_some hp1
                  rw [hp2'] at hp2
                  injection hp2 with hp2
                  subst hp2
                  have hscope : (updateProv st1 q fun q0 =>
                      { q0 with requirements := reqOut }).scope = st.scope :=
                    ((updateProv_links st1 q _).2.2).trans hstep1.scope_eq
                  have ha' : alookup name (scopeAssociations
                      ({ p1 with requirements := reqOut } : Provisionable).service
                      ((updateProv st1 q fun q0 =>
                        { q0 with requirements := reqOut }).scope)) = some a := by
                    rw [hscope]
                    show alookup name (scopeAssociations p1.service st.scope) = some a
                    rw [hsvc1]
                    exact ha
                  have hsome := assertRequirementsSatisfied_none _ _ hassert name a ha' har
                  have hnone := hmiss rfl
                  rw [show ({ p1 with requirements := reqOut } :
                    Provisionable).requirements = reqOut from rfl] at hsome
                  rw [hsome] at hnone
                  cases hnone
                split at h
                next st4 e hse =>
                  injection h with h1 h2
                  subst h1
                  subst h2
                  refine ⟨?_, fun _ => ⟨_, rfl⟩⟩
                  refine registerAssociated_gate pid name _ ihgate _ _ _ _ _ _ _ hse
                    (Or.inr hqne) (GateInv.updateOther (GateInv.pushEvents hg2 _ ?_) _ _ hqne)
                  · intro e he
                    split at he
                    · rcases List.mem_singleton.mp he with rfl
                      refine ⟨?_, rfl⟩
                      show (q == pid) = false
                      simp [hqne]
                    · cases he
                next st4 seOut hse =>
                  have hg4 : GateInv st4 pid name := by
                    refine registerAssociated_gate pid name _ ihgate _ _ _ _ _ _ _ hse
                      (Or.inr hqne) (GateInv.updateOther (GateInv.pushEvents hg2 _ ?_) _ _ hqne)
                    · intro e he
                      split at he
                      · rcases List.mem_singleton.mp he with rfl
                        refine ⟨?_, rfl⟩
                        show (q == pid) = false
                        simp [hqne]
                      · cases he
                  split at h
                  next q5 hq5 =>
                    injection h with h1 h2
                    subst h1
                    subst h2
                    exact ⟨hg4.updateOther _ _ hqne, fun hq => absurd hq hqne⟩
                  next hq5 =>
                    injection h with h1 h2
                    subst h1
                    subst h2
                    exact ⟨hg4.updateOther _ _ hqne, fun _ => ⟨_, rfl⟩⟩

/-! ## Trace faithfulness: recorded scope runs carry the stored config -/

theorem evOK_addEvents (st : OpState) (tail : List Event) (h : EvOK st)
    (htail : ∀ q cfg o, Event.scopeRun q cfg o ∈ tail →
      ∃ pq, alookup q st.provisionables = some pq ∧ cfg = pq.config) :
    EvOK { st with events := st.events ++ tail } := by
  intro q cfg o hmem
  rcases List.mem_append.mp hmem with hm | hm
  · exact h q cfg o hm
  · exact htail q cfg o hm

theorem evOK_updateProv (st : OpState) (pid : String)
    (f : Provisionable → Provisionable)
    (hf : ∀ q, (f q).config = q.config) (h : EvOK st) :
    EvOK (updateProv st pid f) := by
  intro q cfg o hmem
  rw [updateProv_events] at hmem
  obtain ⟨pq, hpq, hcfg⟩ := h q cfg o hmem
  by_cases hq : q = pid
  · subst hq
    refine ⟨f pq, alookup_updateProv_self_some hpq, ?_⟩
    rw [hf pq]
    exact hcfg
  · refine ⟨pq, ?_, hcfg⟩
    rw [alookup_updateProv_other _ _ _ _ hq]
    exact hpq

theorem registerAssociated_evOK
    (reg : OpState → String → OpState × Except Err Output)
    (hreg : ∀ st q st' r, reg st q = (st', r) → EvOK st → EvOK st') :
    ∀ (links : List Link) (st : OpState) (ownerId : String) (isReq : Bool)
      (acc : List (String × Output)) (st' : OpState)
      (r : Except Err (List (String × Output))),
      registerAssociated reg ownerId isReq st links acc = (st', r) →
      EvOK st → EvOK st' := by
  intro links
  induction links with
  | nil =>
    intro st ownerId isReq acc st' r h hev
    simp only [registerAssociated] at h
    injection h with h1 h2
    subst h1
    exact hev
  | cons l rest ih =>
    intro st ownerId isReq acc st' r h hev
    simp only [registerAssociated] at h
    split at h
    next st1 e heq =>
      injection h with h1 h2
      subst h1
      exact hreg _ _ _ _ heq hev
    next st1 lp heq =>
      have hev1 : EvOK st1 := hreg _ _ _ _ heq hev
      split at h
      next target owner htl hol =>
        refine ih _ _ _ _ _ _ h (evOK_addEvents st1 _ hev1 ?_)
        intro q cfg o hmem
        exact absurd (List.mem_singleton.mp hmem) (by simp)
      next htl hol =>
        injection h with h1 h2
        subst h1
        exact hev1

theorem register_evOK :
    ∀ (fuel : Nat) (st : OpState) (q : String) (st' : OpState)
      (r : Except Err Output),
      register fuel st q = (st', r) → EvOK st → EvOK st' := by
  intro fuel
  induction fuel with
  | zero =>
    intro st q st' r h hev
    simp only [register] at h
    injection h with h1 h2
    subst h1
    exact hev
  | succ n ih =>
    intro st q st' r h hev
    simp only [register] at h
    split at h
    next =>
      injection h with h1 h2
      subst h1
      exact hev
    next p hp =>
      split at h
      next hregd =>
        injection h with h1 h2
        subst h1
        exact hev
      next hnreg =>
        split at h
        next errs hv =>
          injection h with h1 h2
          subst h1
          exact hev
        next c hv =>
          split at h
          next st1 e hra =>
            injection h with h1 h2
            subst h1
            exact registerAssociated_evOK _ ih _ _ _ _ _ _ _ hra hev
          next st1 reqOut hra =>
            have hev2 : EvOK (updateProv st1 q fun q0 =>
                { q0 with requirements := reqOut }) :=
              evOK_updateProv _ _ _ (fun _ => rfl)
                (registerAssociated_evOK _ ih _ _ _ _ _ _ _ hra hev)
            split at h
            next hp2 =>
              injection h with h1 h2
              subst h1
              exact hev2
            next p2 hp2 =>
              split at h
              next e hassert =>
                injection h with h1 h2
                subst h1
                exact hev2
              next hassert =>
                split at h
                next st4 e hse =>
                  injection h with h1 h2
                  subst h1
                  refine registerAssociated_evOK _ ih _ _ _ _ _ _ _ hse
                    (evOK_updateProv _ _ _ (fun _ => rfl)
                      (evOK_addEvents _ _ hev2 ?_))
                  intro q0 cfg o hmem
                  split at hmem
                  next h0 hh =>
                    have heq := List.mem_singleton.mp hmem
                    injection heq with e1 e2 e3
                    subst e1
                    subst e2
                    exact ⟨p2, hp2, rfl⟩
                  next => cases hmem
                next st4 seOut hse =>
                  have hev4 : EvOK st4 := by
                    refine registerAssociated_evOK _ ih _ _ _ _ _ _ _ hse
                      (evOK_updateProv _ _ _ (fun _ => rfl)
                        (evOK_addEvents _ _ hev2 ?_))
                    intro q0 cfg o hmem
                    split at hmem
                    next h0 hh =>
                      have heq := List.mem_singleton.mp hmem
                      injection heq with e1 e2 e3
                      subst e1
                      subst e2
                      exact ⟨p2, hp2, rfl⟩
                    next => cases hmem
                  split at h
                  next q5 hq5 =>
                    injection h with h1 h2
                    subst h1
                    exact evOK_updateProv _ _ _ (fun _ => rfl) hev4
                  next hq5 =>
                    injection h with h1 h2
                    subst h1
                    exact evOK_updateProv _ _ _ (fun _ => rfl) hev4

/-! ## Every edge's handler is recorded in the trace -/

theorem registerAssociated_event_count
    (reg : OpState → String → OpState × Except Err Output)
    (hreg : ∀ st q st' r, reg st q = (st', r) → StepOK st st')
    (ownerId : String) (isReq : Bool) :
    ∀ (links : List Link) (st : OpState) (acc : List (String × Output))
      (st' : OpState) (m : List (String × Output)),
      registerAssociated reg ownerId isReq st links acc = (st', .ok m) →
      ∃ tail, st'.events = st.events ++ tail ∧
        links.length ≤ (tail.filter (ownAssocEvent isReq ownerId)).length := by
  intro links
  induction links with
  | nil =>
    intro st acc st' m h
    simp only [registerAssociated] at h
    injection h with h1 h2
    subst h1
    exact ⟨[], by simp, by simp⟩
  | cons l rest ih =>
    intro st acc st' m h
    simp only [registerAssociated] at h
    split at h
    next st1 e heq =>
      injection h with h1 h2
      exact Except.noConfusion h2
    next st1 lp heq =>
      split at h
      next target owner htl hol =>
        obtain ⟨t1, ht1⟩ := (hreg _ _ _ _ heq).events_grow
        obtain ⟨t3, ht3, hc3⟩ := ih _ _ _ _ h
        refine ⟨t1 ++ (Event.assocRun isReq ownerId l.name l.target
          (l.handler { config := target.config, provisions := lp,
                       requirements := target.requirements } (viewOf owner)) :: t3),
          ?_, ?_⟩
        · rw [ht3]
          show st1.events ++ [_] ++ t3 = st.events ++ (t1 ++ (_ :: t3))
          rw [ht1]
          simp
        · have hpe : ownAssocEvent isReq ownerId (Event.assocRun isReq ownerId
              l.name l.target (l.handler
                { config := target.config, provisions := lp,
                  requirements := target.requirements } (viewOf owner))) = true := by
            simp [ownAssocEvent]
          rw [List.filter_append, List.length_append,
            List.filter_cons_of_pos hpe, List.length_cons]
          simp only [List.length_cons]
          omega
      next htl hol =>
        injection h with h1 h2
        exact Except.noConfusion h2

/-! ## Looking a node up by its own id -/

theorem alookup_self_id (st : OpState)
    (hnd : (st.provisionables.map Prod.fst).Nodup)
    (hid : ∀ kv ∈ st.provisionables, kv.2.id = kv.1)
    (M : Provisionable) (hM : M ∈ st.provisionables.map (·.2)) :
    alookup M.id st.provisionables = some M := by
  obtain ⟨kv, hkv, hsnd⟩ := List.mem_map.mp hM
  obtain ⟨k, v⟩ := kv
  have hveq : v = M := hsnd
  subst hveq
  have hk : v.id = k := hid (k, v) hkv
  rw [hk]
  exact alookup_of_mem_nodup hnd hkv

/-! ## The shape of an assert failure -/

theorem assert_failure_shape (p : Provisionable) (scope : Scope) (e : Err)
    (h : assertRequirementsSatisfied p scope = some e) :
    ∃ nm a, (nm, a) ∈ scopeAssociations p.service scope ∧
      a.requirement = true ∧ (alookup nm p.requirements).isNone = true ∧
      e = Err.missingRequirement nm p.service.type := by
  unfold assertRequirementsSatisfied at h
  unfold scopeAssociations
  cases hsa : alookup scope p.service.associations with
  | none =>
    simp only [hsa] at h
    exact Option.noConfusion h
  | some assocs =>
    simp only [hsa] at h
    cases hfind : assocs.find? (fun kv =>
        kv.2.requirement && (alookup kv.1 p.requirements).isNone) with
    | none =>
      simp only [hfind] at h
      exact Option.noConfusion h
    | some kv =>
      simp only [hfind] at h
      injection h with h
      obtain ⟨nm, a⟩ := kv
      have hmem := List.mem_of_find?_eq_some hfind
      have hpred := List.find?_some hfind
      simp only [Bool.and_eq_true] at hpred
      exact ⟨nm, a, hmem, hpred.1, hpred.2, h.symm⟩

/-! ## The claims -/

/-- C1 (amended): `register` on a node whose `registered` flag is set
returns the cached provisions without touching the state, and replaying
`register` after any successful registration reproduces the same state
and provisions — the memoization is idempotent.  The exactly-once part of
the claim is refuted by `c1_counterexample`: in a requirement/side-effect
cycle the memo flag is still unset when the side-effect phase re-enters
the node, so its scope handler runs twice. -/
theorem c1_register_memoization (fuel fuel2 : Nat) (st : OpState) (pid : String) :
    (∀ p, alookup pid st.provisionables = some p → p.registered = true →
      register (fuel + 1) st pid = (st, Except.ok p.provisions)) ∧
    (∀ st' out, register fuel st pid = (st', Except.ok out) →
      register (fuel2 + 1) st' pid = (st', Except.ok out)) := by
  constructor
  · intro p hp hreg
    simp only [register, hp, hreg, if_true]
  · intro st' out h
    obtain ⟨q, hq, hqreg, hqprov⟩ :=
      (register_step fuel st pid st' _ h).2 out rfl
    simp only [register, hq, hqreg, if_true]
    rw [hqprov]

/-- C1 witness: the memo branch and its replay on a registered node. -/
theorem c1_register_memoization_witness :
    register 1 c1WSt "a" = (c1WSt, Except.ok [("db", 5)]) ∧
    register 3 c1WSt "a" = (c1WSt, Except.ok [("db", 5)]) := by
  have h1 := (c1_register_memoization 0 0 c1WSt "a").1 c1RegProv rfl rfl
  exact ⟨h1, (c1_register_memoization 1 2 c1WSt "a").2 c1WSt [("db", 5)] h1⟩

set_option maxRecDepth 1000000 in
/-- C1 counterexample: in the requirement/side-effect cycle of `c1St` the
operation succeeds, yet the database node's scope handler has run twice —
the side-effect phase of the provider re-registers the not-yet-memoized
database node, and the outer frame then runs its handler again. -/
theorem c1_counterexample :
    (process 6 c1St []).2 = Except.ok () ∧
    scopeRunCount (hashObject c1CfgM) (process 6 c1St []).1.events = 2 :=
  ⟨rfl, rfl⟩

/-- C2 (amended): the node id `getProvisionable` assigns is the content
hash of the configuration's JSON serialization, so it is deterministic
for configurations with identical serialization.  The key-order
independence in the claim is refuted by `c2_counterexample`: the
serialization preserves object key order, so reordering keys changes the
id. -/
theorem c2_identity_determinism (registry : List ServiceDef) (ca cb : Config)
    (p1 p2 : Provisionable)
    (h1 : getProvisionable registry ca = some p1)
    (h2 : getProvisionable registry cb = some p2)
    (hser : jsonStringify ca = jsonStringify cb) :
    p1.id = hashObject ca ∧ p2.id = hashObject cb ∧ p1.id = p2.id := by
  unfold getProvisionable at h1 h2
  obtain ⟨s1, hs1, hf1⟩ := Option.map_eq_some'.mp h1
  obtain ⟨s2, hs2, hf2⟩ := Option.map_eq_some'.mp h2
  have e1 : p1.id = hashObject ca := by rw [← hf1]
  have e2 : p2.id = hashObject cb := by rw [← hf2]
  refine ⟨e1, e2, ?_⟩
  rw [e1, e2]
  unfold hashObject
  rw [hser]

/-- C2 witness: the id of a concrete configuration is its content hash. -/
theorem c2_identity_determinism_witness :
    c2ProvA.id = hashObject c2CfgA ∧ c2ProvA.id = hashObject c2CfgA ∧
    c2ProvA.id = c2ProvA.id :=
  c2_identity_determinism c2Registry c2CfgA c2CfgA c2ProvA c2ProvA rfl rfl rfl

set_option maxRecDepth 1000000 in
/-- C2 counterexample: two configurations with identical content but
different key order serialize differently, hash differently, and receive
different node ids. -/
theorem c2_counterexample :
    c2CfgB.Perm c2CfgA ∧
    jsonStringify c2CfgA ≠ jsonStringify c2CfgB ∧
    hashObject c2CfgA ≠ hashObject c2CfgB ∧
    (getProvisionable c2Registry c2CfgA).map Provisionable.id ≠
      (getProvisionable c2Registry c2CfgB).map Provisionable.id := by
  refine ⟨by decide, by decide, by decide, ?_⟩
  intro h
  simp only [getProvisionable, Option.map_map] at h
  revert h
  decide

/-- C3: a node whose service definition declares a requirement
association under the active scope that no requirement edge satisfies
makes `register` abort with an error, no run of the node's own scope
handler or of any of its side-effect handlers is ever recorded, and every
abort raised by the requirement assert is a missing-requirement error
naming the first unsatisfied association and the node's service type. -/
theorem c3_requirement_gate (fuel : Nat) (st : OpState) (pid name : String)
    (st' : OpState) (r : Except Err Output)
    (hgate : GateInv st pid name)
    (hrun : register fuel st pid = (st', r)) :
    (∃ e, r = Except.error e) ∧
    (∀ e ∈ st'.events, ownScopeEvent pid e = false ∧
      ownSideEffectEvent pid e = false) ∧
    (∀ (p2 : Provisionable) (scope : Scope) (e : Err),
      assertRequirementsSatisfied p2 scope = some e →
      ∃ nm a, (nm, a) ∈ scopeAssociations p2.service scope ∧
        a.requirement = true ∧ (alookup nm p2.requirements).isNone = true ∧
        e = Err.missingRequirement nm p2.service.type) := by
  obtain ⟨hg, he⟩ := register_gate pid name fuel st pid st' r hrun hgate
  exact ⟨he rfl, hg.2.2, fun p2 scope e h => assert_failure_shape p2 scope e h⟩

set_option maxRecDepth 1000000 in
/-- C3 witness: the database node whose `provider` requirement has no
candidate in `c3St` aborts registration and leaves no own-handler run. -/
theorem c3_requirement_gate_witness :
    (∃ e, (register 3 c3St (hashObject c1CfgM)).2 = Except.error e) ∧
    (∀ e ∈ (register 3 c3St (hashObject c1CfgM)).1.events,
      ownScopeEvent (hashObject c1CfgM) e = false ∧
      ownSideEffectEvent (hashObject c1CfgM) e = false) ∧
    (∀ (p2 : Provisionable) (scope : Scope) (e : Err),
      assertRequirementsSatisfied p2 scope = some e →
      ∃ nm a, (nm, a) ∈ scopeAssociations p2.service scope ∧
        a.requirement = true ∧ (alookup nm p2.requirements).isNone = true ∧
        e = Err.missingRequirement nm p2.service.type) :=
  c3_requirement_gate 3 c3St (hashObject c1CfgM) "t"
    (register 3 c3St (hashObject c1CfgM)).1
    (register 3 c3St (hashObject c1CfgM)).2
    ⟨⟨c3Prov, rfl, rfl, c3Assoc, rfl, rfl⟩, by decide, by decide⟩ rfl

/-- C7 (amended): when a service type has a specialized attribute
generator, `getAutoGeneratedAttributes` returns the generator's result
verbatim — the default fallback fields are never union-merged on top.
The union reading of the claim is refuted by `c7_counterexample`. -/
theorem c7_auto_attribute_generator (type : String)
    (g : ProjectConfiguration → String → Option Config → Option Config)
    (project : ProjectConfiguration) (environment : String)
    (associated : Option Config)
    (hg : attributeGenerator type = some g) :
    getAutoGeneratedAttributes type project environment associated =
      g project environment associated := by
  unfold getAutoGeneratedAttributes
  rw [hg]

/-- C7 witness: the SSL generator's result is returned verbatim. -/
theorem c7_auto_attribute_generator_witness :
    getAutoGeneratedAttributes "ssl" c7Project "production" (some c7AppCfg) =
      sslGenerator c7Project "production" (some c7AppCfg) :=
  c7_auto_attribute_generator "ssl" sslGenerator c7Project "production"
    (some c7AppCfg) rfl

/-- C7 counterexample: on a project with an explicit region, the SSL
generator's returned configuration carries no `region` key, while the
spec's union-with-defaults derivation would carry the region — the
fallback fields do not fill gaps in a specialized generator's result. -/
theorem c7_counterexample :
    (∃ cfg, getAutoGeneratedAttributes "ssl" c7Project "production"
        (some c7AppCfg) = some cfg ∧ alookup "region" cfg = none) ∧
    (∃ cfg, deriveConfigSpecUnion "ssl" c7Project "production"
        (some c7AppCfg) = some cfg ∧
      alookup "region" cfg = some (CVal.s "eu-central-1")) :=
  ⟨⟨_, rfl, rfl⟩, ⟨_, rfl, rfl⟩⟩

/-- C5 (amended): on validation failure `register` aborts with the whole
collected, per-field error list and the state untouched; but on success
the schema defaults live only on the discarded validated copy — every
scope-handler run recorded for the node carries the node's stored
configuration, to which no default was applied (`c5_counterexample`
exhibits a handler observing a config without the defaulted field). -/
theorem c5_validation_before_handler (fuel : Nat) (st : OpState) (pid : String)
    (p : Provisionable)
    (hp : alookup pid st.provisionables = some p)
    (hpreg : p.registered = false) :
    (∀ errs, validateCfg p.service.schema p.config = Except.error errs →
      register (fuel + 1) st pid =
        (st, Except.error (Err.validation p.service.schemaId errs)) ∧
      errs = collectErrors p.service.schema
        (removeAdditional p.service.schema (applyDefaults p.service.schema p.config))) ∧
    (∀ st' r, register (fuel + 1) st pid = (st', r) → EvOK st →
      ∀ cfg o, Event.scopeRun pid cfg o ∈ st'.events → cfg = p.config) := by
  constructor
  · intro errs hv
    constructor
    · simp only [register, hp, hpreg, Bool.false_eq_true, if_false, hv]
    · simp only [validateCfg] at hv
      split at hv
      · exact Except.noConfusion hv
      · injection hv with hv
        exact hv.symm
  · intro st' r h hev cfg o hmem
    obtain ⟨pq, hpq, hcfg⟩ := register_evOK (fuel + 1) st pid st' r h hev pid cfg o hmem
    obtain ⟨pp, hpp, _, hcfg', _, _⟩ :=
      (register_step (fuel + 1) st pid st' r h).1.meta_eq pid p hp
    rw [hpp] at hpq
    injection hpq with hpq
    subst hpq
    rw [hcfg, hcfg']

set_option maxRecDepth 1000000 in
/-- C5 witness: a configuration violating two property checks at once
aborts registration with both error descriptors in one report, the state
untouched. -/
theorem c5_validation_before_handler_witness :
    register 2 c5BadSt (hashObject c5BadCfg) =
      (c5BadSt, Except.error (Err.validation "services/aws/mysql"
        ["name", "port"])) ∧
    ["name", "port"] = collectErrors c5BadProv.service.schema
      (removeAdditional c5BadProv.service.schema
        (applyDefaults c5BadProv.service.schema c5BadProv.config)) :=
  (c5_validation_before_handler 1 c5BadSt (hashObject c5BadCfg) c5BadProv
    rfl rfl).1 ["name", "port"] rfl

set_option maxRecDepth 1000000 in
/-- C5 counterexample: validation returns the clean copy with the `port`
default applied, but the handler run recorded for the node observes the
stored configuration, which has no `port` — the default never reaches the
handler. -/
theorem c5_counterexample :
    validateCfg c5Svc.schema c5Cfg = Except.ok c5Defaulted ∧
    alookup "port" c5Defaulted = some (CVal.n 3306) ∧
    alookup "port" c5Cfg = none ∧
    (register 2 c5St (hashObject c5Cfg)).2 = Except.ok [("sawPort", 0)] ∧
    (process 2 c5St []).1.events =
      [Event.scopeRun (hashObject c5Cfg) c5Cfg [("sawPort", 0)]] :=
  ⟨rfl, rfl, rfl, rfl, rfl⟩

/-- Dropping the empty lists before flattening changes nothing. -/
theorem flatten_filter_isEmpty {α : Type} (ls : List (List α)) :
    (ls.filter fun l => !l.isEmpty).flatten = ls.flatten := by
  induction ls with
  | nil => rfl
  | cons x rest ih =>
    cases x with
    | nil => simp [List.filter_cons, ih]
    | cons a t => simp [List.filter_cons, ih]

/-- C6: `process` aggregates every service's environment list,
de-duplicates by name, and — when any required variable is absent — fails
with the full missing list, the state untouched (so before any node is
registered); the missing list names exactly the absent required
variables, first occurrence authoritative, without duplicates. -/
theorem c6_environment_check (fuel : Nat) (st : OpState) (env : List String)
    (m : List String)
    (hm : ((operationEnvironment st).filter fun v =>
      v.required && !env.contains v.name).map (fun v => v.name) = m)
    (hne : m ≠ []) :
    process fuel st env = (st, Except.error (Err.missingEnvironment m)) ∧
    (∀ nm, nm ∈ m ↔ (env.contains nm = false ∧
      ∃ v, ((st.provisionables.map fun kp =>
          kp.2.service.environment).flatten).find?
        (fun w => w.name == nm) = some v ∧ v.required = true)) ∧
    m.Nodup := by
  have hval : validateEnvironment (operationEnvironment st) env =
      some (.missingEnvironment m) := by
    simp only [validateEnvironment]
    rw [hm]
    have hne' : m.isEmpty = false := by
      cases m with
      | nil => exact absurd rfl hne
      | cons a t => rfl
    rw [hne']
    simp
  refine ⟨?_, ?_, ?_⟩
  · unfold process
    rw [hval]
  · intro nm
    rw [← hm]
    simp only [List.mem_map]
    constructor
    · rintro ⟨v, hv, rfl⟩
      obtain ⟨hvu, hpred⟩ := List.mem_filter.mp hv
      rw [Bool.and_eq_true] at hpred
      obtain ⟨hreq, hncont⟩ := hpred
      have hcont : env.contains v.name = false := by
        revert hncont
        cases env.contains v.name <;> simp
      simp only [operationEnvironment, uniqByName] at hvu
      obtain ⟨_, hfind⟩ := (mem_uniqByNameAux _ [] v).mp hvu
      rw [flatten_filter_isEmpty] at hfind
      exact ⟨hcont, v, hfind, hreq⟩
    · rintro ⟨hcont, v, hfind, hreq⟩
      have hname : v.name = nm := by
        have hpr := List.find?_some hfind
        simpa using hpr
      subst hname
      refine ⟨v, List.mem_filter.mpr ⟨?_, ?_⟩, rfl⟩
      · show v ∈ uniqByNameAux [] _
        refine (mem_uniqByNameAux _ [] v).mpr ⟨by simp, ?_⟩
        rw [flatten_filter_isEmpty]
        exact hfind
      · rw [hreq, hcont]
        rfl
  · rw [← hm]
    have hnd : ((operationEnvironment st).map (fun v : EnvVar => v.name)).Nodup :=
      (uniqByNameAux_names _ []).1
    exact List.Nodup.sublist ((List.filter_sublist _).map _) hnd

/-- C6 witness: two services demanding `AWS_KEY`, `OPT` (optional) and
`TOKEN`; with only `TOKEN` in the environment, processing fails at once
with exactly `[AWS_KEY]`. -/
theorem c6_environment_check_witness :
    process 3 c6St ["TOKEN"] =
      (c6St, Except.error (Err.missingEnvironment ["AWS_KEY"])) ∧
    (∀ nm, nm ∈ ["AWS_KEY"] ↔ ((["TOKEN"].contains nm) = false ∧
      ∃ v, ((c6St.provisionables.map fun kp =>
          kp.2.service.environment).flatten).find?
        (fun w => w.name == nm) = some v ∧ v.required = true)) ∧
    (["AWS_KEY"] : List String).Nodup :=
  c6_environment_check 3 c6St ["TOKEN"] ["AWS_KEY"] rfl (by decide)

/-- C9: a node without a handler for the active scope registers without
error — empty provisions, memo flag set — and still participates in
association resolution: edge construction never consults handlers, so it
can serve as the target of any other node's association. -/
theorem c9_scope_optionality (fuel : Nat) (st : OpState) (pid : String)
    (p : Provisionable)
    (hp : alookup pid st.provisionables = some p)
    (hpreg : p.registered = false)
    (hnh : alookup st.scope p.service.handlers = none) :
    (∀ st' out, register (fuel + 1) st pid = (st', Except.ok out) →
      out = [] ∧ ∃ q, alookup pid st'.provisionables = some q ∧
        q.registered = true ∧ q.provisions = []) ∧
    (∀ (ownerConfig : Config) (nm : String) (a : Assoc)
        (nodes : List Provisionable) (M : Provisionable), M ∈ nodes →
      (a.withType = none ∨ a.withType = some M.service.type) →
      (∀ f, a.whereFn = some f → f ownerConfig M.config = true) →
      ({ name := nm, target := M.id, handler := a.handler,
         requirement := a.requirement } : Link) ∈
        linksForAssoc ownerConfig nm a nodes) := by
  constructor
  · intro st' out h
    simp only [register, hp, hpreg, Bool.false_eq_true, if_false] at h
    split at h
    next errs hv =>
      injection h with h1 h2
      exact Except.noConfusion h2
    next c hv =>
      split at h
      next st1 e hra =>
        injection h with h1 h2
        exact Except.noConfusion h2
      next st1 reqOut hra =>
        have hstep1 : StepOK st st1 :=
          (registerAssociated_step _ (register_step fuel) pid true _ _ _ _ _ hra).1
        obtain ⟨p1, hp1, _, _, hpsvc1, _⟩ := hstep1.meta_eq pid p hp
        have hp2m : alookup pid (updateProv st1 pid fun q0 =>
            { q0 with requirements := reqOut }).provisionables =
            some { p1 with requirements := reqOut } :=
          alookup_updateProv_self_some hp1
        split at h
        next hp2 =>
          rw [hp2m] at hp2
          exact Option.noConfusion hp2
        next p2 hp2 =>
          rw [hp2m] at hp2
          injection hp2 with hp2
          subst hp2
          split at h
          next e hassert =>
            injection h with h1 h2
            exact Except.noConfusion h2
          next hassert =>
            have hscope2 : (updateProv st1 pid fun q0 =>
                { q0 with requirements := reqOut }).scope = st.scope :=
              ((updateProv_links st1 pid _).2.2).trans hstep1.scope_eq
            have hhl : alookup (updateProv st1 pid fun q0 =>
                { q0 with requirements := reqOut }).scope
                ({ p1 with requirements := reqOut } : Provisionable).service.handlers =
                none := by
              rw [hscope2]
              show alookup st.scope p1.service.handlers = none
              rw [hpsvc1]
              exact hnh
            rw [hhl] at h
            simp only [] at h
            split at h
            next st4 e hse =>
              injection h with h1 h2
              exact Except.noConfusion h2
            next st4 seOut hse =>
              obtain ⟨q4, hq4, _, _, _, hfr⟩ :=
                (registerAssociated_step _ (register_step fuel) pid false
                  _ _ _ _ _ hse).1.meta_eq pid _
                  (alookup_updateProv_self_some hp2m)
              have hq4eq : q4 = { p1 with
                  requirements := reqOut, provisions := [],
                  registered := true } := hfr rfl
              subst hq4eq
              split at h
              next q5 hq5 =>
                injection h with h1 h2
                injection h2 with h2
                subst h1
                have hq5m : alookup pid (updateProv st4 pid fun q0 =>
                    { q0 with sideEffects := seOut }).provisionables =
                    some { p1 with
                      requirements := reqOut, provisions := [],
                      registered := true, sideEffects := seOut } :=
                  alookup_updateProv_self_some hq4
                rw [hq5m] at hq5
                injection hq5 with hq5
                subst hq5
                rw [← h2]
                exact ⟨rfl, _, hq5m, rfl, rfl⟩
              next hq5 =>
                injection h with h1 h2
                exact Except.noConfusion h2
  · intro ownerConfig nm a nodes M hM hty hwh
    refine (mem_linksForAssoc ownerConfig nm a nodes _).mpr ⟨M, hM, rfl, ?_, ?_⟩
    · rcases hty with hty | hty
      · rw [hty]
      · rw [hty]
        simp
    · cases hwf : a.whereFn with
      | none => rfl
      | some f => simp [hwh f hwf]

/-- C9 witness: the handlerless `dns` node registers successfully with
empty provisions and its memo flag set. -/
theorem c9_scope_optionality_witness :
    (register 1 c9St "d1").2 = Except.ok [] ∧
    (∃ q, alookup "d1" (register 1 c9St "d1").1.provisionables = some q ∧
      q.registered = true ∧ q.provisions = []) := by
  have h := (c9_scope_optionality 0 c9St "d1" c9Prov rfl rfl rfl).1
    (register 1 c9St "d1").1 [] rfl
  exact ⟨rfl, h.2⟩

/-- C8: merging a base schema with an addition lets the addition's
property definition win field-by-field (a default redefined by the
addition is the addition's), keys absent from the addition keep the
base's definition, and the required list is the de-duplicated union of
both required lists. -/
theorem c8_schema_merge (s t : JsonSchema) (p : String)
    (ps pt : List (String × Prim)) (dv : Prim)
    (hb : (t.properties.map Prod.fst).Nodup)
    (hpt : (pt.map Prod.fst).Nodup)
    (hs : alookup p s.properties = some (JVal.obj ps))
    (ht : alookup p t.properties = some (JVal.obj pt))
    (hd : alookup "default" pt = some dv) :
    (∃ m, alookup p (mergeJsonSchemas s t).properties = some (JVal.obj m) ∧
      alookup "default" m = some dv) ∧
    (∀ q, alookup q t.properties = none →
      alookup q (mergeJsonSchemas s t).properties = alookup q s.properties) ∧
    (∀ x, x ∈ (mergeJsonSchemas s t).required ↔
      x ∈ s.required ∨ x ∈ t.required) ∧
    (mergeJsonSchemas s t).required.Nodup := by
  refine ⟨?_, ?_, ?_, ?_⟩
  · have hm := alookup_mergeProps t.properties s.properties p hb
    simp only [ht, hs] at hm
    refine ⟨assignFields ps pt, ?_, ?_⟩
    · show alookup p (mergeProps s.properties t.properties) = _
      rw [hm]
      rfl
    · have ha := alookup_assignFields pt ps "default" hpt
      simp only [hd] at ha
      exact ha
  · intro q hq
    have hm := alookup_mergeProps t.properties s.properties q hb
    simp only [hq] at hm
    exact hm
  · intro x
    show x ∈ uniqFirst (s.required ++ t.required) ↔ _
    rw [mem_uniqFirst, List.mem_append]
  · show (uniqFirst (s.required ++ t.required)).Nodup
    exact nodup_uniqFirst _

/-- C8 witness: `size` redefined with default `large` by the addition
wins; `name` keeps the base definition; required is the de-duplicated
union. -/
theorem c8_schema_merge_witness :
    (∃ m, alookup "size" (mergeJsonSchemas c8Base c8Addition).properties =
        some (JVal.obj m) ∧ alookup "default" m = some (Prim.str "large")) ∧
    (∀ q, alookup q c8Addition.properties = none →
      alookup q (mergeJsonSchemas c8Base c8Addition).properties =
        alookup q c8Base.properties) ∧
    (∀ x, x ∈ (mergeJsonSchemas c8Base c8Addition).required ↔
      x ∈ c8Base.required ∨ x ∈ c8Addition.required) ∧
    (mergeJsonSchemas c8Base c8Addition).required.Nodup :=
  c8_schema_merge c8Base c8Addition "size"
    [("type", Prim.str "string"), ("default", Prim.str "small"),
     ("minimum", Prim.num 1)]
    [("type", Prim.str "string"), ("default", Prim.str "large")]
    (Prim.str "large") (by decide) (by decide) rfl rfl rfl

/-- C10: when the precomputed edge list of one phase carries several
edges under one association name, a successful pass registers every
linked node and invokes every edge's handler (each run is recorded), but
the output stored under the name is exactly the handler result of the
last edge carrying it — later edges overwrite earlier ones, as
`Object.assign` does. -/
theorem c10_last_edge_wins (n : Nat) (st : OpState) (ownerId : String)
    (isReq : Bool) (pre post : List Link) (lastL : Link) (name : String)
    (st' : OpState) (m : List (String × Output))
    (hlast : lastL.name = name)
    (hpost : ∀ l ∈ post, l.name ≠ name)
    (hrun : registerAssociated (fun s q => register n s q) ownerId isReq st
      (pre ++ lastL :: post) [] = (st', Except.ok m)) :
    (∃ st1 acc1 st2 provs target owner,
      registerAssociated (fun s q => register n s q) ownerId isReq st pre [] =
        (st1, Except.ok acc1) ∧
      register n st1 lastL.target = (st2, Except.ok provs) ∧
      alookup lastL.target st2.provisionables = some target ∧
      alookup ownerId st2.provisionables = some owner ∧
      alookup name m = some (lastL.handler
        { config := target.config, provisions := provs,
          requirements := target.requirements } (viewOf owner))) ∧
    (∀ l ∈ pre ++ lastL :: post, ∃ q,
      alookup l.target st'.provisionables = some q ∧ q.registered = true) ∧
    (∃ tail, st'.events = st.events ++ tail ∧
      pre.length + post.length + 1 ≤
        (tail.filter (ownAssocEvent isReq ownerId)).length) := by
  subst hlast
  refine ⟨?_, ?_, ?_⟩
  · rw [registerAssociated_append] at hrun
    split at hrun
    next st1 acc1 hpre =>
      simp only [registerAssociated] at hrun
      split at hrun
      next st2 e heq =>
        injection hrun with h1 h2
        exact Except.noConfusion h2
      next st2 provs heq =>
        split at hrun
        next target owner htl hol =>
          have hskip := registerAssociated_skip_name _ ownerId isReq
            lastL.name post hpost _ _ _ _ hrun
          rw [alookup_jsAssign_self] at hskip
          exact ⟨st1, acc1, st2, provs, target, owner, hpre, heq, htl, hol, hskip⟩
        next htl hol =>
          injection hrun with h1 h2
          exact Except.noConfusion h2
    next st1 e hpre =>
      injection hrun with h1 h2
      exact Except.noConfusion h2
  · exact fun l hl => ((registerAssociated_step _ (register_step n) ownerId isReq
      _ _ _ _ _ hrun).2 m rfl).1 l hl
  · obtain ⟨tail, ht, hc⟩ := registerAssociated_event_count _
      (fun s q s2 r h => (register_step n s q s2 r h).1) ownerId isReq
      _ _ _ _ _ hrun
    refine ⟨tail, ht, ?_⟩
    rw [List.length_append, List.length_cons] at hc
    omega

/-- C10 witness: two edges named `db`; the collected output under `db` is
the second handler's result, both targets end registered, and both runs
are in the trace. -/
theorem c10_last_edge_wins_witness :
    (∃ st1 acc1 st2 provs target owner,
      registerAssociated (fun s q => register 1 s q) "o" false c10St [c10L1] [] =
        (st1, Except.ok acc1) ∧
      register 1 st1 c10L2.target = (st2, Except.ok provs) ∧
      alookup c10L2.target st2.provisionables = some target ∧
      alookup "o" st2.provisionables = some owner ∧
      alookup "db" ([("db", [("r", 2)])] : List (String × Output)) =
        some (c10L2.handler
          { config := target.config, provisions := provs,
            requirements := target.requirements } (viewOf owner))) ∧
    (∀ l ∈ [c10L1] ++ c10L2 :: [], ∃ q,
      alookup l.target (registerAssociated (fun s q0 => register 1 s q0) "o" false
        c10St ([c10L1] ++ c10L2 :: []) []).1.provisionables = some q ∧
      q.registered = true) ∧
    (∃ tail, (registerAssociated (fun s q0 => register 1 s q0) "o" false
        c10St ([c10L1] ++ c10L2 :: []) []).1.events = c10St.events ++ tail ∧
      ([c10L1] : List Link).length + ([] : List Link).length + 1 ≤
        (tail.filter (ownAssocEvent false "o")).length) :=
  c10_last_edge_wins 1 c10St "o" false [c10L1] [] c10L2 "db"
    (registerAssociated (fun s q => register 1 s q) "o" false
      c10St ([c10L1] ++ c10L2 :: []) []).1
    [("db", [("r", 2)])] rfl (by simp) rfl

/-- C4: given the full node set and the active scope, for a node `N`,
an association `A` of its definition under that scope, and any node `M`
in the set, an edge from `N` targeting `M` is recorded under `A`'s name —
in the requirement set if `A` is a requirement, the side-effect set
otherwise — iff `A`'s type filter is unset or equals `M`'s service type
and `A`'s predicate accepts `(N.config, M.config)`.  (The type filter
must not be the empty string: that is the JS-truthiness edge where the
filter is ignored.) -/
theorem c4_association_resolution
    (registry : List ServiceDef) (scope : Scope) (services : List Config)
    (st : OpState) (idN : String) (N M : Provisionable) (name : String) (a : Assoc)
    (hsetup : setupOperation registry scope services = some st)
    (hN : alookup idN st.provisionables = some N)
    (hname : alookup name (scopeAssociations N.service scope) = some a)
    (hnodup : ((scopeAssociations N.service scope).map Prod.fst).Nodup)
    (hM : M ∈ st.provisionables.map (·.2))
    (hW : a.withType ≠ some "") :
    (∃ l, l ∈ (alookup idN (if a.requirement then st.reqLinks
          else st.seLinks)).getD [] ∧
        l.name = name ∧ l.target = M.id) ↔
      ((a.withType = none ∨ a.withType = some M.service.type) ∧
        (∀ f, a.whereFn = some f → f N.config M.config = true)) := by
  obtain ⟨hscope, hev, hnd, hid, hlinks⟩ :=
    setupOperation_facts registry scope services st hsetup
  obtain ⟨hreq, hse⟩ := hlinks idN N hN
  have hself : ∀ P : Provisionable, P ∈ st.provisionables.map (·.2) →
      alookup P.id st.provisionables = some P :=
    fun P hP => alookup_self_id st hnd hid P hP
  have key : ∀ (b : Bool) (L : List Link),
      (∀ l' : Link, l' ∈ L ↔ ∃ nm a',
        (nm, a') ∈ scopeAssociations N.service scope ∧ a'.requirement = b ∧
        l' ∈ linksForAssoc N.config nm a' (st.provisionables.map (·.2))) →
      a.requirement = b →
      ((∃ l, l ∈ L ∧ l.name = name ∧ l.target = M.id) ↔
        ((a.withType = none ∨ a.withType = some M.service.type) ∧
          (∀ f, a.whereFn = some f → f N.config M.config = true))) := by
    intro b L hchar hab
    constructor
    · rintro ⟨l, hl, hlname, hltgt⟩
      obtain ⟨nm, aa, hmem, hr, hlassoc⟩ := (hchar l).mp hl
      obtain ⟨MM, hMM, hleq, hf1, hf2⟩ :=
        (mem_linksForAssoc N.config nm aa _ l).mp hlassoc
      have hnm : nm = name := by
        rw [hleq] at hlname
        exact hlname
      subst hnm
      have haa : a = aa := by
        have hlook := alookup_of_mem_nodup hnodup hmem
        rw [hname] at hlook
        injection hlook
      subst haa
      have hMeq : M = MM := by
        have h1 := hself MM hMM
        have htg : MM.id = M.id := by
          rw [hleq] at hltgt
          exact hltgt
        rw [htg, hself M hM] at h1
        injection h1
      subst hMeq
      constructor
      · cases hwt : a.withType with
        | none => exact Or.inl rfl
        | some t =>
          simp only [hwt] at hf1
          have ht' : t ≠ "" := fun h0 => hW (by rw [hwt, h0])
          cases h1 : decide (t ≠ "") with
          | false => exact absurd (not_not.mp (of_decide_eq_false h1)) ht'
          | true =>
            have h2 : decide (M.service.type ≠ t) = false := by
              rw [h1] at hf1
              simpa using hf1
            exact Or.inr (by rw [not_not.mp (of_decide_eq_false h2)])
      · intro f hf
        simp only [hf] at hf2
        revert hf2
        cases f N.config M.config <;> simp
    · rintro ⟨hty, hwh⟩
      refine ⟨{ name := name, target := M.id, handler := a.handler,
                requirement := a.requirement }, ?_, rfl, rfl⟩
      refine (hchar _).mpr ⟨name, a, alookup_mem hname, hab, ?_⟩
      refine (mem_linksForAssoc N.config name a _ _).mpr ⟨M, hM, rfl, ?_, ?_⟩
      · rcases hty with hty | hty
        · rw [hty]
        · rw [hty]
          simp
      · cases hwf : a.whereFn with
        | none => rfl
        | some f => simp [hwh f hwf]
  cases hab : a.requirement with
  | true =>
    rw [if_pos rfl, hreq, Option.getD_some]
    exact key true _ (fun l' => (mem_linksForEntries N.config
      (st.provisionables.map (·.2)) (scopeAssociations N.service scope) l').1) hab
  | false =>
    rw [if_neg (by simp), hse, Option.getD_some]
    exact key false _ (fun l' => (mem_linksForEntries N.config
      (st.provisionables.map (·.2)) (scopeAssociations N.service scope) l').2) hab

set_option maxRecDepth 1000000 in
/-- C4 witness: in the two-node operation, the database's requirement
association `t` (type filter `provider`) records an edge targeting the
provider node, and the recorded-iff-matching equivalence holds for the
pair. -/
theorem c4_association_resolution_witness :
    (∃ l, l ∈ (alookup (hashObject c1CfgM) (if c3Assoc.requirement then
          c1St.reqLinks else c1St.seLinks)).getD [] ∧
        l.name = "t" ∧ l.target = c4ProvP.id) ↔
      ((c3Assoc.withType = none ∨ c3Assoc.withType = some c4ProvP.service.type) ∧
        (∀ f, c3Assoc.whereFn = some f → f c3Prov.config c4ProvP.config = true)) :=
  c4_association_resolution [c1SvcMysql, c1SvcProvider] Scope.deployable
    [c1CfgM, c1CfgP] c1St (hashObject c1CfgM) c3Prov c4ProvP "t" c3Assoc
    rfl rfl rfl (by decide)
    (show c4ProvP ∈ [c3Prov, c4ProvP] from List.mem_cons_of_mem _
      (List.mem_cons_self _ _))
    (by decide)

end Stackmate
